import Mathlib

/-!
Verification of the packet-handler layer of `src/server/Commands.py`
(dungeon-blitz-flash-reboot).

Each handler of `Commands.py` locates the session's active character inside the
save, mutates it, persists the save, and optionally sends a reply.  We embed the
per-character state transformation of each handler as a pure function
`Character → ... → Character × Bool × Option reply`, where the `Bool` records
whether the handler reached its persistence step ("processed to completion")
and the reply is the structured content the handler sends back.

The repository snapshot does not contain `bitreader.py`, `BitUtils.py` or
`constants.py`; definitions taken from those missing modules are marked
`Modelled from the spec:` and follow spec.md §4.1 (bit codec) and the constants
that the source's own comments fix (27 mastery nodes, 6 gear slots).
-/

namespace DB

/-- One gear item, `{gearID, tier, runes[3], colors[2]}` (spec §3, and the
dictionaries built throughout `Commands.py`). -/
structure Gear where
  gearID : Nat
  tier : Nat
  runes : List Nat
  colors : List Nat
deriving DecidableEq

/-- One charm stack `{charmID, count}` (`char["charms"]` entries). Counts are
integers: the handlers decrement and then compare with `<= 0`. -/
structure Charm where
  charmID : Nat
  count : Int
deriving DecidableEq

/-- One material stack `{materialID, count}` (`char["materials"]` entries). -/
structure Material where
  materialID : Nat
  count : Int
deriving DecidableEq

/-- One consumable stack `{consumableID, count}` (`char["consumables"]`). -/
structure Consumable where
  consumableID : Nat
  count : Int
deriving DecidableEq

/-- The `magicForge` session dictionary, with every key the handlers of
`Commands.py` read or write (`start_forge_packet`, `magic_forge_packet`,
`collect_forge_charm`, `cancel_forge_packet`). -/
structure MagicForge where
  hasSession : Bool := false
  primary : Nat := 0
  secondary : Nat := 0
  duration : Nat := 0
  status : Nat := 0
  var_8 : Nat := 0
  usedlist : Nat := 0
  var_2675 : Nat := 0
  var_2316 : Nat := 0
  var_2434 : Bool := false
deriving DecidableEq

/-- One mastery-tree slot `{nodeIdx, filled, points}` as read by
`send_mastery_packet`. -/
structure MSlot where
  nodeIdx : Nat
  filled : Bool
  points : Nat
deriving DecidableEq

/-- One gear set `{name, slots}` (`char["gearSets"]` entries). -/
structure GearSet where
  name : String
  slots : List Nat
deriving DecidableEq

/-- The per-character save record, with the fields the verified handlers
touch.  `Mastery` maps a master-class id to its slot list (the JSON uses
string keys `str(mc)`; we key by the numeral itself). -/
structure Character where
  equippedGears : List Gear := []
  inventoryGears : List Gear := []
  charms : List Charm := []
  materials : List Material := []
  consumables : List Consumable := []
  magicForge : MagicForge := {}
  mammothIdols : Nat := 0
  activeAbilities : List Nat := []
  gearSets : List GearSet := []
  MasterClass : Nat := 1
  Mastery : List (Nat × List MSlot) := []
deriving DecidableEq

/-- Modelled from the spec: `EntType.MAX_SLOTS` lives in the missing
`constants.py`; spec §3 fixes six gear slots and the source comments state
`MAX_SLOTS - 1` is `6` (`handle_create_gearset`, `handle_update_equipment`). -/
def MAX_SLOTS : Nat := 7

/-- Modelled from the spec: `class_111.const_286`, the in-progress forge
status code from the missing `constants.py`; its numeric value is unknown,
only its role (`status` while a forge session counts down) is used. -/
def const_286 : Nat := 2

/-- Modelled from the spec: `class_111.const_264`, the completed-via-speed-up
forge status code from the missing `constants.py`. -/
def const_264 : Nat := 3

/-- Modelled from the spec: `class_118.const_43`, the mastery-tree node count;
the source comment in `send_mastery_packet` fixes it at 27 and spec §4.6
confirms. -/
def class_118_const_43 : Nat := 27

/-- The zero gear used to pad the equipped list
(`{"gearID": 0, "tier": 0, "runes": [0,0,0], "colors": [0,0]}`). -/
def placeholderGear (gid : Nat) : Gear :=
  { gearID := gid, tier := 0, runes := [0, 0, 0], colors := [0, 0] }

def defaultGear : Gear := placeholderGear 0

/-! ### First-match list operations

The handlers scan Python lists with `for ... if ...: ...; break` patterns:
first-match find, first-match in-place update, `list.remove` by value. -/

/-- First gear satisfying `p` (`for item in inv: if ...: break`). -/
def findFirstGear (p : Gear → Bool) : List Gear → Option Gear
  | [] => none
  | g :: rest => if p g then some g else findFirstGear p rest

/-- Replace the first gear satisfying `p` by `v`; identity when none matches
(in-place mutation of the found dictionary). -/
def setFirstGear (p : Gear → Bool) (v : Gear) : List Gear → List Gear
  | [] => []
  | g :: rest => if p g then v :: rest else g :: setFirstGear p v rest

/-- First charm with the given id. -/
def findCharm : List Charm → Nat → Option Charm
  | [], _ => none
  | ch :: rest, cid => if ch.charmID = cid then some ch else findCharm rest cid

/-- Replace the first charm with the given id by `v`. -/
def setFirstCharm : List Charm → Nat → Charm → List Charm
  | [], _, _ => []
  | ch :: rest, cid, v =>
    if ch.charmID = cid then v :: rest else ch :: setFirstCharm rest cid v

/-- Python `charms.remove(x)`: drop the first entry equal (by value) to `x`. -/
def removeFirstEq : List Charm → Charm → List Charm
  | [], _ => []
  | ch :: rest, x => if ch = x then rest else ch :: removeFirstEq rest x

/-- The count the handlers observe for a charm id: the first entry's count,
`0` when absent. -/
def charmCount (cs : List Charm) (cid : Nat) : Int :=
  match findCharm cs cid with
  | some ch => ch.count
  | none => 0

/-- Grant one unit of a charm id: increment the first matching entry's count,
or append `{charmID: cid, count: 1}` (`collect_forge_charm` step 2 and the
rune-return step of `handle_rune_packet`). -/
def addCharm : List Charm → Nat → List Charm
  | [], cid => [⟨cid, 1⟩]
  | ch :: rest, cid =>
    if ch.charmID = cid then { ch with count := ch.count + 1 } :: rest
    else ch :: addCharm rest cid

/-- Consume one unit of a charm id (`handle_rune_packet`): decrement the first
matching entry in place and, if its count falls to `<= 0`, remove the first
entry equal by value to the decremented one (`charms.remove(charm)`).  No-op
when the id is absent (the source only logs a warning). -/
def consumeCharm (cs : List Charm) (cid : Nat) : List Charm :=
  match findCharm cs cid with
  | none => cs
  | some ch =>
    let ch' : Charm := ⟨ch.charmID, ch.count - 1⟩
    let cs' := setFirstCharm cs cid ch'
    if ch'.count ≤ 0 then removeFirstEq cs' ch' else cs'

/-- First material with the given id. -/
def findMaterial : List Material → Nat → Option Material
  | [], _ => none
  | e :: rest, mid => if e.materialID = mid then some e else findMaterial rest mid

/-- The stock the handlers observe for a material id. -/
def matCount (ms : List Material) (mid : Nat) : Int :=
  match findMaterial ms mid with
  | some e => e.count
  | none => 0

/-- Deduct `used` units of a material, clamping at zero
(`entry["count"] = max(0, entry["count"] - used)`); when the entry is absent,
record a zero-count entry (`mats.append({"materialID": mat_id, "count": 0})`). -/
def deductMaterial : List Material → Nat → Nat → List Material
  | [], mid, _ => [⟨mid, 0⟩]
  | e :: rest, mid, used =>
    if e.materialID = mid then { e with count := max 0 (e.count - used) } :: rest
    else e :: deductMaterial rest mid used

/-- The material fold of `start_forge_packet`. -/
def deductAll (ms : List Material) (used : List (Nat × Nat)) : List Material :=
  used.foldl (fun acc mu => deductMaterial acc mu.1 mu.2) ms

/-- First consumable with the given id. -/
def findConsumable : List Consumable → Nat → Option Consumable
  | [], _ => none
  | e :: rest, cid => if e.consumableID = cid then some e else findConsumable rest cid

/-- The stock the handlers observe for a consumable id. -/
def consCount (cs : List Consumable) (cid : Nat) : Int :=
  match findConsumable cs cid with
  | some e => e.count
  | none => 0

/-- Deduct one unit of a consumable, clamping at zero; append a zero-count
entry when absent (`start_forge_packet` step 6). -/
def deductConsumable : List Consumable → Nat → List Consumable
  | [], cid => [⟨cid, 0⟩]
  | e :: rest, cid =>
    if e.consumableID = cid then { e with count := max 0 (e.count - 1) } :: rest
    else e :: deductConsumable rest cid

/-! ### Bit codec

Modelled from the spec: `BitReader` / `BitBuffer` live in the missing
`bitreader.py` / `BitUtils.py`.  Spec §4.1: `readBits(n)` takes the next `n`
bits most-significant-bit first and fails when fewer remain; the writer is the
mirror image.  A payload is a `List Bool`. -/

/-- Value of a most-significant-bit-first bit string. -/
def bitsToNat (bs : List Bool) : Nat :=
  bs.foldl (fun a b => 2 * a + (if b then 1 else 0)) 0

/-- The `w`-bit most-significant-bit-first encoding of `v` (its low `w` bits);
`BitBuffer.write_bits(v, w)` per spec §4.1. -/
def toBits : Nat → Nat → List Bool
  | _, 0 => []
  | v, w + 1 => toBits (v / 2) w ++ [decide (v % 2 = 1)]

/-- Modelled from the spec: `write_method_4` / `read_method_4`, the
self-terminating variable-width unsigned integer with a continuation flag bit
(spec §4.1).  The exact chunk width is unknown; we use 8-bit chunks, each
preceded by a flag bit that is `true` when more chunks follow.  The claims
only use this encoding as an opaque prefix of the mastery packet. -/
def method_4_bits (v : Nat) : List Bool :=
  if _h : v < 256 then false :: toBits v 8
  else true :: (toBits (v % 256) 8 ++ method_4_bits (v / 256))
termination_by v
decreasing_by
  exact Nat.div_lt_self (by omega) (by omega)

/-! ### Gear equip (`handle_gear_packet`, packet 0x31) -/

/-- The echo reply of `handle_gear_packet`: the decoded
`(entity_id, prefix, slot1, gear_id)` tuple written back with the same
widths. -/
structure GearEcho where
  entityId : Nat
  pfx : Nat
  slot1 : Nat
  gearId : Nat
deriving DecidableEq

/-- `while len(eq) < 6: eq.append({...zero gear...})`. -/
def growGearsTo6 (eq : List Gear) : List Gear :=
  eq ++ List.replicate (6 - eq.length) defaultGear

/-- Python list indexing: a negative index counts from the end; out-of-range
raises `IndexError` (`none`). -/
def pyIndex (len : Nat) (i : Int) : Option Nat :=
  if 0 ≤ i then (if i < (len : Int) then some i.toNat else none)
  else (if 0 ≤ i + len then some (i + (len : Int)).toNat else none)

/-- `handle_gear_packet` after decoding, acting on the located character:
grow the equipped list to 6 slots, look the gear id up in the inventory
(falling back to a zero-tier placeholder), write it at `slot1 - 1`
(Python indexing), append a copy to the inventory when the id is absent,
persist and echo.  An out-of-range slot raises `IndexError` after the growth,
so nothing is persisted and no reply is sent. -/
def handleGear (c : Character) (eid pfx slot1 gid : Nat) :
    Character × Bool × Option GearEcho :=
  let inv := c.inventoryGears
  let eq1 := growGearsTo6 c.equippedGears
  let gearData :=
    match findFirstGear (fun it => decide (it.gearID = gid)) inv with
    | some it => it
    | none => placeholderGear gid
  match pyIndex eq1.length ((slot1 : Int) - 1) with
  | none => ({ c with equippedGears := eq1 }, false, none)
  | some k =>
    let eq2 := eq1.set k gearData
    let inv' := if inv.any (fun it => decide (it.gearID = gid)) then inv
                else inv ++ [gearData]
    ({ c with equippedGears := eq2, inventoryGears := inv' },
     true, some ⟨eid, pfx, slot1, gid⟩)

/-! ### Rune socketing (`handle_rune_packet`, packet 0xB0) -/

/-- The echo reply of `handle_rune_packet`. -/
structure RuneEcho where
  entityId : Nat
  gearId : Nat
  gearTier : Nat
  runeId : Nat
  runeSlot : Nat
deriving DecidableEq

/-- Pad the equipped list with zero gears up to `MAX_SLOTS - 1` slots and
truncate beyond (`handle_rune_packet`, "Ensure correct slot count"). -/
def padTruncEq (eq : List Gear) : List Gear :=
  (eq ++ List.replicate (MAX_SLOTS - 1 - eq.length) defaultGear).take (MAX_SLOTS - 1)

/-- The equipped-slot and inventory match predicate of `handle_rune_packet`:
same gear id and same tier. -/
def runeMatch (gid gtier : Nat) (g : Gear) : Bool :=
  decide (g.gearID = gid ∧ g.tier = gtier)

/-- `handle_rune_packet` after decoding, acting on the located character.
Padding/truncation of the equipped list happens first and survives every
early return.  A rune slot outside `{1,2,3}`, a missing gear, or a too-short
rune list leaves everything else untouched with no save and no echo.
Otherwise: rune id 96 clears the slot, returns the old rune to the charms
(when it was neither empty nor itself 96) and consumes one remover charm;
any other rune id is written into the slot and one unit of it is consumed
from the charms.  The new rune value is then propagated into the first
inventory entry matching `(gearID, tier)` (appending a copy of the updated
gear when none matches); a too-short inventory rune list raises `IndexError`
there, after the equipped list and charms were already mutated. -/
def handleRune (c : Character) (eid gid gtier rid rs : Nat) :
    Character × Bool × Option RuneEcho :=
  let eq := padTruncEq c.equippedGears
  match findFirstGear (runeMatch gid gtier) eq with
  | none => ({ c with equippedGears := eq }, false, none)
  | some g =>
    if 1 ≤ rs ∧ rs ≤ 3 then
      let idx := rs - 1
      match g.runes[idx]? with
      | none => ({ c with equippedGears := eq }, false, none)
      | some oldRune =>
        let newRune := if rid = 96 then 0 else rid
        let g' := { g with runes := g.runes.set idx newRune }
        let charms' :=
          if rid = 96 then
            consumeCharm
              (if oldRune ≠ 0 ∧ oldRune ≠ 96 then addCharm c.charms oldRune
               else c.charms) 96
          else consumeCharm c.charms rid
        let eq' := setFirstGear (runeMatch gid gtier) g' eq
        match findFirstGear (runeMatch gid gtier) c.inventoryGears with
        | some it =>
          if idx < it.runes.length then
            let it' := { it with runes := it.runes.set idx (g'.runes.getD idx 0) }
            ({ c with equippedGears := eq',
                      inventoryGears := setFirstGear (runeMatch gid gtier) it' c.inventoryGears,
                      charms := charms' },
             true, some ⟨eid, gid, gtier, rid, rs⟩)
          else
            ({ c with equippedGears := eq', charms := charms' }, false, none)
        | none =>
          ({ c with equippedGears := eq',
                    inventoryGears := c.inventoryGears ++ [g'],
                    charms := charms' },
           true, some ⟨eid, gid, gtier, rid, rs⟩)
    else
      ({ c with equippedGears := eq }, false, none)

/-! ### Magic forge (`start_forge_packet` 0xB1, `magic_forge_packet`,
`collect_forge_charm` 0xD0) -/

/-- Deduct the flagged consumables in flag order
(`for flag, cid in zip(consumable_flags, consumable_ids)`). -/
def deductFlagged : List Bool → List Nat → List Consumable → List Consumable
  | f :: fs, cid :: cs, acc =>
    deductFlagged fs cs (if f then deductConsumable acc cid else acc)
  | _, _, acc => acc

/-- The flagged consumable ids, in flag order. -/
def flaggedIds : List Bool → List Nat → List Nat
  | f :: fs, cid :: cs => if f then cid :: flaggedIds fs cs else flaggedIds fs cs
  | _, _ => []

/-- `start_forge_packet` after decoding, acting on the located character.
`cids` are the four fixed consumable ids `class_3.var_1415/2082/1374/1462`
from the missing `constants.py`, kept abstract. -/
def start_forge (c : Character) (primary : Nat) (materialsUsed : List (Nat × Nat))
    (flags : List Bool) (cids : List Nat) : Character :=
  let mats := materialsUsed.foldl (fun acc mu => deductMaterial acc mu.1 mu.2) c.materials
  let cons := deductFlagged flags cids c.consumables
  let mf := { c.magicForge with
    hasSession := true, primary := primary, status := const_286,
    duration := 60000, var_8 := 0, usedlist := 0, var_2675 := 0,
    var_2316 := 0, var_2434 := true }
  { c with materials := mats, consumables := cons, magicForge := mf }

/-- The 0xCD forge-update reply of `magic_forge_packet`:
`(primary, var_2675, var_2316)` plus a zero bit. -/
structure ForgeUpdate where
  primary : Nat
  var_2675 : Nat
  var_2316 : Nat
deriving DecidableEq

/-- `magic_forge_packet` (speed-up) acting on the located character: accepted
only when `hasSession` and the idol balance covers the spend; then the balance
is debited, the session marked completed with zero duration, the save
persisted and a 0xCD reply sent.  Otherwise nothing changes and nothing is
sent. -/
def magic_forge (c : Character) (idolsToSpend : Nat) :
    Character × Bool × Option ForgeUpdate :=
  let mf := c.magicForge
  if mf.hasSession = true ∧ idolsToSpend ≤ c.mammothIdols then
    ({ c with mammothIdols := c.mammothIdols - idolsToSpend,
              magicForge := { mf with status := const_264, duration := 0 } },
     true, some ⟨mf.primary, mf.var_2675, mf.var_2316⟩)
  else (c, false, none)

/-- `collect_forge_charm` (0xD0) acting on the located character: requires an
active session; grants one unit of the primary charm id when it is positive;
clears the session fields it lists (`var_8` is not among them); persists and
acknowledges with an empty 0xE3 packet. -/
def collect_forge (c : Character) : Character × Bool × Option (Nat × List Bool) :=
  let mf := c.magicForge
  if mf.hasSession = true then
    let charms' := if mf.primary ≤ 0 then c.charms else addCharm c.charms mf.primary
    let mf' := { mf with
      hasSession := false, primary := 0, secondary := 0, duration := 0,
      usedlist := 0, var_2675 := 0, var_2316 := 0, var_2434 := false,
      status := 0 }
    ({ c with charms := charms', magicForge := mf' }, true, some (0xe3, []))
  else (c, false, none)

/-! ### Gear sets (`handle_apply_gearset`, packet 0xC6) -/

/-- `handle_apply_gearset` after decoding the set index, acting on the located
character: aborts (no mutation, no save, no echo) when the index is out of
range or the equipped list does not have exactly `MAX_SLOTS - 1` entries;
otherwise copies the equipped gear ids into the chosen set's slot list,
persists and echoes the request. -/
def setGearSetSlots (gs : List GearSet) (k : Nat) (ids : List Nat) : List GearSet :=
  gs.set k { gs.getD k ⟨"", []⟩ with slots := ids }

def handle_apply_gearset (c : Character) (slotIdx : Nat) : Character × Bool × Bool :=
  let gs := c.gearSets
  if slotIdx < gs.length then
    if c.equippedGears.length = MAX_SLOTS - 1 then
      let gearIds := c.equippedGears.map (fun it => it.gearID)
      ({ c with gearSets := setGearSetSlots gs slotIdx gearIds }, true, true)
    else (c, false, false)
  else (c, false, false)

/-! ### Hotbar (`handle_hotbar_packet`) -/

/-- The decode loop of `handle_hotbar_packet`: while at least one bit remains,
read a 1-bit changed flag and, when set, the next 7 bits as a skill id
recorded under key `slot - 1`; `slot` starts at 1 and advances every
iteration.  A set flag with fewer than 7 bits left is a truncated packet
(spec §4.1/§7): the handler aborts before touching the character. -/
def decodeHotbar : List Bool → Nat → Option (List (Nat × Nat))
  | [], _ => some []
  | b :: rest, slot =>
    if b then
      match rest with
      | b1 :: b2 :: b3 :: b4 :: b5 :: b6 :: b7 :: rest7 =>
        match decodeHotbar rest7 (slot + 1) with
        | none => none
        | some u => some ((slot - 1, bitsToNat [b1, b2, b3, b4, b5, b6, b7]) :: u)
      | _ => none
    else decodeHotbar rest (slot + 1)

/-- `while len(active) <= max_idx: active.append(0)` where
`max_idx = max(updates.keys(), default=-1)`. -/
def growActive (active : List Nat) (updates : List (Nat × Nat)) : List Nat :=
  match updates with
  | [] => active
  | _ =>
    let m := (updates.map Prod.fst).foldl max 0
    active ++ List.replicate (m + 1 - active.length) 0

/-- Apply the decoded updates in place (`active[idx] = skill_id`). -/
def applyHotbar (active : List Nat) (updates : List (Nat × Nat)) : List Nat :=
  updates.foldl (fun acc p => acc.set p.1 p.2) (growActive active updates)

/-- `handle_hotbar_packet` acting on the located character; the `Bool` records
whether the save was persisted. -/
def handleHotbar (c : Character) (bits : List Bool) : Character × Bool :=
  match decodeHotbar bits 1 with
  | none => (c, false)
  | some updates =>
    ({ c with activeAbilities := applyHotbar c.activeAbilities updates }, true)

/-! ### Mastery tree (`send_mastery_packet` 0xC1,
`handle_masterclass_packet` 0xC3)

`method_277` (the per-node point-bit-width function) and
`CLASS_118_CONST_127` (the node-index width) live in the missing
`constants.py`; both are kept abstract as parameters `w` and `cw`. -/

/-- `slot_map = { s["nodeIdx"] - 1: s for s in slots }`: a dict comprehension,
so the last slot with a given key wins. -/
def lookupNode (slots : List MSlot) (i : Nat) : Option MSlot :=
  (slots.filter (fun s => decide (s.nodeIdx - 1 = i))).getLast?

/-- The bits `send_mastery_packet` writes for node index `i`: a presence bit;
when the node is present and filled, the node index with width `cw` and
`points - 1` with width `w i`. -/
def encodeNodeAt (w : Nat → Nat) (cw : Nat) (slots : List MSlot) (i : Nat) : List Bool :=
  match lookupNode slots i with
  | some s =>
    if s.filled then true :: (toBits s.nodeIdx cw ++ toBits (s.points - 1) (w i))
    else [false]
  | none => [false]

/-- The mastery-tree body: the node encodings for `i = 0 .. 26` in order
(the `for i in range(total)` loop of `send_mastery_packet`). -/
def encodeMasteryBody (w : Nat → Nat) (cw : Nat) (slots : List MSlot) : List Bool :=
  (List.range class_118_const_43).foldl (fun acc i => acc ++ encodeNodeAt w cw slots i) []

/-- `char.get("Mastery", {}).get(str(mc), {}).get("slots", [])`. -/
def masteryLookup : List (Nat × List MSlot) → Nat → List MSlot
  | [], _ => []
  | kv :: rest, mc => if kv.1 = mc then kv.2 else masteryLookup rest mc

/-- The full 0xC1 payload of `send_mastery_packet`: the entity id as a
variable-width integer, then the tree body for the character's current
master class. -/
def send_mastery_payload (w : Nat → Nat) (cw : Nat) (c : Character) (eid : Nat) : List Bool :=
  method_4_bits eid ++ encodeMasteryBody w cw (masteryLookup c.Mastery c.MasterClass)

/-- `handle_masterclass_packet` acting on the located character: store the new
master class, persist, echo `(entity_id, master_class_id)` as 0xC3, then
re-encode and resend the full mastery tree (0xC1) for the newly selected
class. -/
def handle_masterclass (w : Nat → Nat) (cw : Nat) (c : Character) (eid mcid : Nat) :
    Character × (Nat × Nat) × List Bool :=
  let c' := { c with MasterClass := mcid }
  (c', (eid, mcid), send_mastery_payload w cw c' eid)

/-- A reference decoder for the tree body, reading for each listed node index
a presence bit and, when set, `cw` node-index bits and `w i` point bits
(mirroring the client decoder the spec describes). -/
def decodeBoundedUint (bits : List Bool) (wd : Nat) : Option (Nat × List Bool) :=
  if wd ≤ bits.length then some (bitsToNat (bits.take wd), bits.drop wd) else none

def decodeNodes (w : Nat → Nat) (cw : Nat) : List Nat → List Bool → Option (List (Nat × Nat) × List Bool)
  | [], bits => some ([], bits)
  | _ :: _, [] => none
  | i :: is, bit :: rest =>
    if bit then
      match decodeBoundedUint rest cw with
      | none => none
      | some (ni, rest1) =>
        match decodeBoundedUint rest1 (w i) with
        | none => none
        | some (pm1, rest2) =>
          match decodeNodes w cw is rest2 with
          | none => none
          | some (acc, r) => some ((ni, pm1 + 1) :: acc, r)
    else decodeNodes w cw is rest

/-- Decode a full tree body: all 27 node groups, consuming the body exactly. -/
def decodeMasteryBody (w : Nat → Nat) (cw : Nat) (bits : List Bool) :
    Option (List (Nat × Nat)) :=
  match decodeNodes w cw (List.range class_118_const_43) bits with
  | some (l, []) => some l
  | _ => none

/-- The `(nodeIdx, points)` data of the present-and-filled nodes, in node
order: what a correct decode of the body must reproduce. -/
def pickNode (slots : List MSlot) (i : Nat) : Option (Nat × Nat) :=
  match lookupNode slots i with
  | some s => if s.filled then some (s.nodeIdx, s.points) else none
  | none => none

def filledNodes (slots : List MSlot) : List (Nat × Nat) :=
  (List.range class_118_const_43).filterMap (pickNode slots)

/-- Well-formedness of one tree node for widths `w`/`cw`: a filled node's
index fits in `cw` bits, it has at least one invested point, and
`points - 1` fits in `w i` bits. -/
def nodeOKb (w : Nat → Nat) (cw : Nat) (slots : List MSlot) (i : Nat) : Bool :=
  match lookupNode slots i with
  | some s =>
    !s.filled || (decide (s.nodeIdx < 2 ^ cw) && decide (1 ≤ s.points) &&
                  decide (s.points - 1 < 2 ^ (w i)))
  | none => true

/-- The node encodings of an explicit index list (the loop body of
`send_mastery_packet`, abstracted over the iteration space). -/
def encFrom (w : Nat → Nat) (cw : Nat) (slots : List MSlot) : List Nat → List Bool
  | [] => []
  | i :: is => encodeNodeAt w cw slots i ++ encFrom w cw slots is

/-! ### Invariants and concrete inputs -/

/-- An inventory entry matching a gear by id with identical rune and color
state (the matching the spec's equip invariant asks for). -/
def gearSynced (inv : List Gear) (g : Gear) : Prop :=
  ∃ it ∈ inv, it.gearID = g.gearID ∧ it.runes = g.runes ∧ it.colors = g.colors

/-- The equip invariant of the claim, verbatim: every gear id present in
`equippedGears` has an `inventoryGears` entry with identical rune and color
state ("all" version, including zero ids). -/
def gearSyncedB (inv : List Gear) (g : Gear) : Bool :=
  inv.any (fun it => decide (it.gearID = g.gearID ∧ it.runes = g.runes ∧ it.colors = g.colors))

def equipInvariantAllB (c : Character) : Bool :=
  c.equippedGears.all (fun g => gearSyncedB c.inventoryGears g)

/-- The equip invariant restricted to nonzero gear ids (id 0 is the empty
slot sentinel the handlers pad with). -/
def equipSyncInvariant (c : Character) : Prop :=
  ∀ g ∈ c.equippedGears, g.gearID ≠ 0 → gearSynced c.inventoryGears g

instance (inv : List Gear) (g : Gear) : Decidable (gearSynced inv g) := by
  unfold gearSynced
  exact List.decidableBEx _ inv

instance (c : Character) : Decidable (equipSyncInvariant c) := by
  unfold equipSyncInvariant
  infer_instance

/-- A character whose equipped gear 5 has rune state out of sync with the
(empty) inventory. -/
def c1bad : Character :=
  { equippedGears := [{ gearID := 5, tier := 0, runes := [1, 0, 0], colors := [0, 0] }] }

/-- A character with a gear set whose slot list is empty while the equipped
list has the standard 6 slots. -/
def c9bad : Character :=
  { gearSets := [⟨"A", []⟩], equippedGears := List.replicate 6 defaultGear }

/-- The default character record (an empty save). -/
def emptyChar : Character := {}

/-- A character with one well-formed gear set and 6 equipped slots. -/
def c9ok : Character :=
  { gearSets := [⟨"A", [1, 2, 3, 4, 5, 6]⟩], equippedGears := List.replicate 6 defaultGear }

/-- A character holding 5 units of material 12 (the start-forge scenario). -/
def forgeChar : Character := { materials := [⟨12, 5⟩] }

/-- A character with an active forge session and 10 idols. -/
def speedupChar : Character :=
  { magicForge := { hasSession := true, primary := 9 }, mammothIdols := 10 }

/-- A character with a completed forge session whose primary id is 7. -/
def collectChar : Character :=
  { magicForge := { hasSession := true, primary := 7 } }

/-- A character for the rune-conservation scenario: gear 5 equipped with all
rune slots empty, two units of charm 7 and one remover charm. -/
def runeChar : Character :=
  { equippedGears := [placeholderGear 5]
    charms := [⟨7, 2⟩, ⟨96, 1⟩] }

/-- A synced character for the equip/rune invariant witness. -/
def syncedChar : Character :=
  { equippedGears := [{ gearID := 5, tier := 0, runes := [1, 0, 0], colors := [0, 0] }]
    inventoryGears := [{ gearID := 5, tier := 0, runes := [1, 0, 0], colors := [0, 0] }]
    charms := [⟨7, 2⟩, ⟨96, 1⟩] }

/-- A character with one filled mastery node (node index 3, 2 points) in the
tree of master class 2. -/
def masteryChar : Character :=
  { Mastery := [(2, [⟨3, true, 2⟩])] }

/-- A character with two hotbar slots set. -/
def hotbarChar : Character := { activeAbilities := [9, 8] }

/-! ### Lemmas: first-match scans -/

theorem findFirstGear_none_any (p : Gear → Bool) :
    ∀ l : List Gear, findFirstGear p l = none → l.any p = false := by
  intro l h
  induction l with
  | nil => rfl
  | cons g rest ih =>
    by_cases hp : p g
    · simp [findFirstGear, hp] at h
    · simp only [findFirstGear, hp, if_neg] at h
      simp [List.any_cons, hp, ih h]

theorem findFirstGear_mem_pred (p : Gear → Bool) :
    ∀ l : List Gear, ∀ g, findFirstGear p l = some g → g ∈ l ∧ p g = true := by
  intro l
  induction l with
  | nil => intro g h; simp [findFirstGear] at h
  | cons a rest ih =>
    intro g h
    by_cases hp : p a
    · simp only [findFirstGear, hp, if_pos] at h
      cases h
      exact ⟨List.mem_cons_self a rest, hp⟩
    · simp only [findFirstGear, hp, if_neg, not_false_iff] at h
      obtain ⟨hm, hpg⟩ := ih g h
      exact ⟨List.mem_cons_of_mem a hm, hpg⟩

/-- Decomposition of a successful first-match scan: the list splits around
the found element, with every earlier entry failing the predicate, and
replacing the first match rewrites exactly that position. -/
theorem findFirstGear_decomp (p : Gear → Bool) :
    ∀ l : List Gear, ∀ g, findFirstGear p l = some g →
      ∃ l1 l2, l = l1 ++ g :: l2 ∧ (∀ a ∈ l1, p a = false) ∧
        ∀ v, setFirstGear p v l = l1 ++ v :: l2 := by
  intro l
  induction l with
  | nil => intro g h; simp [findFirstGear] at h
  | cons a rest ih =>
    intro g h
    by_cases hp : p a
    · simp only [findFirstGear, hp, if_pos] at h
      cases h
      exact ⟨[], rest, by simp, by simp, fun v => by simp [setFirstGear, hp]⟩
    · simp only [findFirstGear, hp, if_neg, not_false_iff] at h
      obtain ⟨l1, l2, hsplit, hfail, hset⟩ := ih g h
      refine ⟨a :: l1, l2, by simp [hsplit], ?_, ?_⟩
      · intro x hx
        rcases List.mem_cons.mp hx with hx | hx
        · subst hx; exact Bool.of_not_eq_true hp
        · exact hfail x hx
      · intro v
        simp [setFirstGear, hp, hset v]

theorem setFirstGear_of_none (p : Gear → Bool) :
    ∀ l : List Gear, findFirstGear p l = none → ∀ v, setFirstGear p v l = l := by
  intro l h v
  induction l with
  | nil => rfl
  | cons a rest ih =>
    by_cases hp : p a
    · simp [findFirstGear, hp] at h
    · simp only [findFirstGear, hp, if_neg, not_false_iff] at h
      simp [setFirstGear, hp, ih h]

theorem length_setFirstGear (p : Gear → Bool) (v : Gear) :
    ∀ l : List Gear, (setFirstGear p v l).length = l.length := by
  intro l
  induction l with
  | nil => rfl
  | cons a rest ih =>
    by_cases hp : p a <;> simp [setFirstGear, hp, ih]

/-! ### Lemmas: charm operations -/

theorem findCharm_addCharm_ne (cid x : Nat) (hx : x ≠ cid) :
    ∀ cs : List Charm, findCharm (addCharm cs cid) x = findCharm cs x := by
  intro cs
  induction cs with
  | nil => simp [addCharm, findCharm, Ne.symm hx]
  | cons ch rest ih =>
    obtain ⟨chid, chcnt⟩ := ch
    by_cases h : chid = cid
    · subst h
      simp [addCharm, findCharm, Ne.symm hx]
    · simp [addCharm, findCharm, h, ih]

theorem charmCount_addCharm_self (cid : Nat) :
    ∀ cs : List Charm, charmCount (addCharm cs cid) cid = charmCount cs cid + 1 := by
  intro cs
  induction cs with
  | nil => simp [addCharm, findCharm, charmCount]
  | cons ch rest ih =>
    obtain ⟨chid, chcnt⟩ := ch
    by_cases h : chid = cid
    · subst h
      simp [addCharm, findCharm, charmCount]
    · simpa [addCharm, findCharm, charmCount, h] using ih

theorem charmCount_addCharm_ne (cid x : Nat) (hx : x ≠ cid) (cs : List Charm) :
    charmCount (addCharm cs cid) x = charmCount cs x := by
  simp [charmCount, findCharm_addCharm_ne cid x hx]

/-! ### Lemmas: material and consumable deduction -/

theorem findMaterial_deduct_self (mid used : Nat) :
    ∀ ms : List Material,
      findMaterial (deductMaterial ms mid used) mid =
        some ⟨mid, max 0 (matCount ms mid - (used : Int))⟩ := by
  intro ms
  induction ms with
  | nil =>
    simp [deductMaterial, findMaterial, matCount]
  | cons e rest ih =>
    obtain ⟨eid, ecnt⟩ := e
    by_cases h : eid = mid
    · subst h
      simp [deductMaterial, findMaterial, matCount]
    · simp [deductMaterial, findMaterial, matCount, h, ih]

theorem findMaterial_deduct_ne (mid used x : Nat) (hx : x ≠ mid) :
    ∀ ms : List Material,
      findMaterial (deductMaterial ms mid used) x = findMaterial ms x := by
  intro ms
  induction ms with
  | nil => simp [deductMaterial, findMaterial, Ne.symm hx]
  | cons e rest ih =>
    obtain ⟨eid, ecnt⟩ := e
    by_cases h : eid = mid
    · subst h
      simp [deductMaterial, findMaterial, Ne.symm hx]
    · simp [deductMaterial, findMaterial, h, ih]

theorem findMaterial_deductAll_notmem (x : Nat) :
    ∀ (L : List (Nat × Nat)) (ms : List Material), x ∉ L.map Prod.fst →
      findMaterial (deductAll ms L) x = findMaterial ms x := by
  intro L
  induction L with
  | nil => intro ms _; rfl
  | cons mu rest ih =>
    intro ms hx
    simp only [List.map_cons, List.mem_cons] at hx
    push_neg at hx
    have h1 : x ≠ mu.1 := hx.1
    have h2 : x ∉ rest.map Prod.fst := hx.2
    show findMaterial (deductAll (deductMaterial ms mu.1 mu.2) rest) x = findMaterial ms x
    rw [ih _ h2, findMaterial_deduct_ne mu.1 mu.2 x h1]

theorem findMaterial_deductAll_mem :
    ∀ (L : List (Nat × Nat)) (ms : List Material), (L.map Prod.fst).Nodup →
      ∀ mu ∈ L,
        findMaterial (deductAll ms L) mu.1 =
          some ⟨mu.1, max 0 (matCount ms mu.1 - (mu.2 : Int))⟩ := by
  intro L
  induction L with
  | nil => intro ms _ mu hmu; simp at hmu
  | cons m0 rest ih =>
    intro ms hnd mu hmu
    simp only [List.map_cons, List.nodup_cons] at hnd
    rcases List.mem_cons.mp hmu with hmu | hmu
    · subst hmu
      have hnot : mu.1 ∉ rest.map Prod.fst := hnd.1
      show findMaterial (deductAll (deductMaterial ms mu.1 mu.2) rest) mu.1 = _
      rw [findMaterial_deductAll_notmem mu.1 rest _ hnot, findMaterial_deduct_self]
    · have hne : mu.1 ≠ m0.1 := by
        intro hcontra
        exact hnd.1 (hcontra ▸ List.mem_map_of_mem Prod.fst hmu)
      show findMaterial (deductAll (deductMaterial ms m0.1 m0.2) rest) mu.1 = _
      rw [ih _ hnd.2 mu hmu]
      congr 2
      simp [matCount, findMaterial_deduct_ne m0.1 m0.2 mu.1 hne]

theorem findConsumable_deduct_self (cid : Nat) :
    ∀ cs : List Consumable,
      findConsumable (deductConsumable cs cid) cid =
        some ⟨cid, max 0 (consCount cs cid - 1)⟩ := by
  intro cs
  induction cs with
  | nil =>
    simp [deductConsumable, findConsumable, consCount]
  | cons e rest ih =>
    obtain ⟨eid, ecnt⟩ := e
    by_cases h : eid = cid
    · subst h
      simp [deductConsumable, findConsumable, consCount]
    · simp [deductConsumable, findConsumable, consCount, h, ih]

theorem findConsumable_deduct_ne (cid x : Nat) (hx : x ≠ cid) :
    ∀ cs : List Consumable,
      findConsumable (deductConsumable cs cid) x = findConsumable cs x := by
  intro cs
  induction cs with
  | nil => simp [deductConsumable, findConsumable, Ne.symm hx]
  | cons e rest ih =>
    obtain ⟨eid, ecnt⟩ := e
    by_cases h : eid = cid
    · subst h
      simp [deductConsumable, findConsumable, Ne.symm hx]
    · simp [deductConsumable, findConsumable, h, ih]

theorem deductFlagged_cons (f : Bool) (fs : List Bool) (cid : Nat) (cs : List Nat)
    (acc : List Consumable) :
    deductFlagged (f :: fs) (cid :: cs) acc =
      deductFlagged fs cs (if f then deductConsumable acc cid else acc) := rfl

theorem flaggedIds_cons (f : Bool) (fs : List Bool) (cid : Nat) (cs : List Nat) :
    flaggedIds (f :: fs) (cid :: cs) =
      if f then cid :: flaggedIds fs cs else flaggedIds fs cs := rfl

theorem flaggedIds_sublist :
    ∀ (fs : List Bool) (cs : List Nat), List.Sublist (flaggedIds fs cs) cs := by
  intro fs
  induction fs with
  | nil => intro cs; cases cs <;> simp [flaggedIds]
  | cons f fs' ih =>
    intro cs
    cases cs with
    | nil => simp [flaggedIds]
    | cons cid cs' =>
      rw [flaggedIds_cons]
      by_cases hf : f
      · rw [if_pos hf]; exact (ih cs').cons₂ cid
      · rw [if_neg hf]; exact (ih cs').cons cid

theorem findConsumable_deductFlagged_notmem (x : Nat) :
    ∀ (fs : List Bool) (cs : List Nat) (acc : List Consumable),
      x ∉ flaggedIds fs cs →
        findConsumable (deductFlagged fs cs acc) x = findConsumable acc x := by
  intro fs
  induction fs with
  | nil => intro cs acc _; cases cs <;> rfl
  | cons f fs' ih =>
    intro cs acc hx
    cases cs with
    | nil => rfl
    | cons cid cs' =>
      rw [flaggedIds_cons] at hx
      rw [deductFlagged_cons]
      by_cases hf : f
      · rw [if_pos hf] at hx ⊢
        rw [List.mem_cons] at hx
        push_neg at hx
        rw [ih cs' _ hx.2, findConsumable_deduct_ne cid x hx.1]
      · rw [if_neg hf] at hx ⊢
        exact ih cs' acc hx

theorem findConsumable_deductFlagged_mem :
    ∀ (fs : List Bool) (cs : List Nat) (acc : List Consumable),
      (flaggedIds fs cs).Nodup →
      ∀ cid ∈ flaggedIds fs cs,
        findConsumable (deductFlagged fs cs acc) cid =
          some ⟨cid, max 0 (consCount acc cid - 1)⟩ := by
  intro fs
  induction fs with
  | nil => intro cs acc _ cid hcid; cases cs <;> simp [flaggedIds] at hcid
  | cons f fs' ih =>
    intro cs acc hnd cid hcid
    cases cs with
    | nil => simp [flaggedIds] at hcid
    | cons c0 cs' =>
      rw [flaggedIds_cons] at hcid hnd
      rw [deductFlagged_cons]
      by_cases hf : f
      · rw [if_pos hf] at hcid hnd ⊢
        rw [List.nodup_cons] at hnd
        rcases List.mem_cons.mp hcid with hcid | hcid
        · subst hcid
          rw [findConsumable_deductFlagged_notmem cid fs' cs' _ hnd.1,
            findConsumable_deduct_self]
        · have hne : cid ≠ c0 := fun hcontra => hnd.1 (hcontra ▸ hcid)
          rw [ih cs' _ hnd.2 cid hcid]
          congr 2
          simp [consCount, findConsumable_deduct_ne c0 cid hne]
      · rw [if_neg hf] at hcid hnd ⊢
        exact ih cs' acc hnd cid hcid

theorem growGearsTo6_length_ge (l : List Gear) : 6 ≤ (growGearsTo6 l).length := by
  simp [growGearsTo6]
  omega

/-! ### Claims C3, C4, C5, C6, C9, C10 -/

/-- Claim C3: a single-gear-equip request decoding to `slot1 = 1` and a gear
id absent from the inventory writes the placeholder
`{gearID, tier: 0, runes: [0,0,0], colors: [0,0]}` into equipped slot
`slot1 - 1 = 0`, appends a matching copy to the inventory, persists, and
echoes the decoded `(entityId, prefix, slot1, gearId)` tuple. -/
theorem C3_equip_unknown_gear (c : Character) (eid pfx gid : Nat)
    (habs : findFirstGear (fun it => decide (it.gearID = gid)) c.inventoryGears = none) :
    handleGear c eid pfx 1 gid =
      ({ c with
          equippedGears := (growGearsTo6 c.equippedGears).set 0 (placeholderGear gid),
          inventoryGears := c.inventoryGears ++ [placeholderGear gid] },
       true, some ⟨eid, pfx, 1, gid⟩) := by
  have hany := findFirstGear_none_any _ _ habs
  have hlen := growGearsTo6_length_ge c.equippedGears
  have hpy : pyIndex (growGearsTo6 c.equippedGears).length 0 = some 0 := by
    unfold pyIndex
    rw [if_pos le_rfl, if_pos (by exact_mod_cast Nat.lt_of_lt_of_le (by norm_num) hlen)]
    rfl
  simp [handleGear, habs, hany, hpy]

theorem C3_equip_unknown_gear_witness :
    findFirstGear (fun it => decide (it.gearID = 42)) emptyChar.inventoryGears = none ∧
    handleGear emptyChar 1 1 1 42 =
      ({ emptyChar with
          equippedGears := (growGearsTo6 emptyChar.equippedGears).set 0 (placeholderGear 42),
          inventoryGears := emptyChar.inventoryGears ++ [placeholderGear 42] },
       true, some ⟨1, 1, 1, 42⟩) :=
  ⟨by decide, C3_equip_unknown_gear emptyChar 1 1 42 (by decide)⟩

/-- Claim C4: a start-forge request with primary `p` and material map `M`,
for a character present in the save: each listed material is deducted by the
requested amount clamped at zero (a zero-count entry being recorded when the
material was absent), unlisted materials are untouched, each flagged
consumable is deducted by one clamped at zero, unflagged consumables are
untouched, and the forge session becomes
`{hasSession: true, primary: p, status: InProgress, duration: 60000}`.
The map keys and the four fixed consumable ids are distinct (they model
Python dict keys and four distinct constants). -/
theorem C4_start_forge (c : Character) (p : Nat) (M : List (Nat × Nat))
    (flags : List Bool) (cids : List Nat)
    (hM : (M.map Prod.fst).Nodup) (hcids : cids.Nodup) :
    (∀ mu ∈ M,
      findMaterial (start_forge c p M flags cids).materials mu.1 =
        some ⟨mu.1, max 0 (matCount c.materials mu.1 - (mu.2 : Int))⟩) ∧
    (∀ m, m ∉ M.map Prod.fst →
      findMaterial (start_forge c p M flags cids).materials m = findMaterial c.materials m) ∧
    (∀ cid ∈ flaggedIds flags cids,
      findConsumable (start_forge c p M flags cids).consumables cid =
        some ⟨cid, max 0 (consCount c.consumables cid - 1)⟩) ∧
    (∀ x, x ∉ flaggedIds flags cids →
      findConsumable (start_forge c p M flags cids).consumables x =
        findConsumable c.consumables x) ∧
    (start_forge c p M flags cids).magicForge.hasSession = true ∧
    (start_forge c p M flags cids).magicForge.primary = p ∧
    (start_forge c p M flags cids).magicForge.status = const_286 ∧
    (start_forge c p M flags cids).magicForge.duration = 60000 := by
  have hflag : (flaggedIds flags cids).Nodup :=
    List.Nodup.sublist (flaggedIds_sublist flags cids) hcids
  refine ⟨?_, ?_, ?_, ?_, rfl, rfl, rfl, rfl⟩
  · intro mu hmu
    simpa [start_forge, deductAll] using
      findMaterial_deductAll_mem M c.materials hM mu hmu
  · intro m hm
    simpa [start_forge, deductAll] using
      findMaterial_deductAll_notmem m M c.materials hm
  · intro cid hcid
    simpa [start_forge] using
      findConsumable_deductFlagged_mem flags cids c.consumables hflag cid hcid
  · intro x hx
    simpa [start_forge] using
      findConsumable_deductFlagged_notmem x flags cids c.consumables hx

theorem C4_start_forge_witness :
    ((([((12 : Nat), (3 : Nat))]).map Prod.fst).Nodup ∧
      ([101, 102, 103, 104] : List Nat).Nodup) ∧
    (∀ mu ∈ [((12 : Nat), (3 : Nat))],
      findMaterial (start_forge forgeChar 7 [(12, 3)] [false, false, false, false]
          [101, 102, 103, 104]).materials mu.1 =
        some ⟨mu.1, max 0 (matCount forgeChar.materials mu.1 - (mu.2 : Int))⟩) ∧
    findMaterial (start_forge forgeChar 7 [(12, 3)] [false, false, false, false]
        [101, 102, 103, 104]).materials 12 = some ⟨12, 2⟩ ∧
    (start_forge forgeChar 7 [(12, 3)] [false, false, false, false]
        [101, 102, 103, 104]).magicForge =
      { hasSession := true, primary := 7, status := const_286, duration := 60000,
        var_2434 := true } :=
  ⟨⟨by decide, by decide⟩,
   (C4_start_forge forgeChar 7 [(12, 3)] [false, false, false, false]
      [101, 102, 103, 104] (by decide) (by decide)).1,
   by decide, by decide⟩

/-- Claim C5: a forge speed-up spending `s` is accepted exactly when a session
is active and the idol balance covers `s`; acceptance debits the balance,
zeroes the duration, marks the session completed and sends the 0xCD update;
otherwise nothing changes, nothing is persisted and nothing is sent. -/
theorem C5_forge_speedup (c : Character) (s : Nat) :
    (c.magicForge.hasSession = true → s ≤ c.mammothIdols →
      magic_forge c s =
        ({ c with mammothIdols := c.mammothIdols - s,
                  magicForge := { c.magicForge with status := const_264, duration := 0 } },
         true,
         some ⟨c.magicForge.primary, c.magicForge.var_2675, c.magicForge.var_2316⟩)) ∧
    (¬(c.magicForge.hasSession = true ∧ s ≤ c.mammothIdols) →
      magic_forge c s = (c, false, none)) := by
  constructor
  · intro h1 h2
    simp [magic_forge, h1, h2]
  · intro h
    simp [magic_forge, h]

theorem C5_forge_speedup_witness :
    (speedupChar.magicForge.hasSession = true ∧ 3 ≤ speedupChar.mammothIdols) ∧
    magic_forge speedupChar 3 =
      ({ speedupChar with
          mammothIdols := speedupChar.mammothIdols - 3,
          magicForge := { speedupChar.magicForge with status := const_264, duration := 0 } },
       true,
       some ⟨speedupChar.magicForge.primary, speedupChar.magicForge.var_2675,
             speedupChar.magicForge.var_2316⟩) ∧
    magic_forge emptyChar 3 = (emptyChar, false, none) :=
  ⟨⟨by decide, by decide⟩,
   (C5_forge_speedup speedupChar 3).1 (by decide) (by decide),
   (C5_forge_speedup emptyChar 3).2 (by decide)⟩

/-- Claim C6: a collect-forge request with an active session grants one unit
of the primary charm id when it is positive (incrementing the first matching
entry or creating a count-1 entry) and leaves the charms untouched when it is
zero; every session field the spec's data model lists (`hasSession`,
`primary`, `secondary`, `duration`, `status`, together with the
implementation's `usedlist`/`var_2675`/`var_2316`/`var_2434`) is reset to its
zero/false default, the save is persisted, and an empty 0xE3 acknowledgment
is sent. -/
theorem C6_collect_forge (c : Character) (h : c.magicForge.hasSession = true) :
    (0 < c.magicForge.primary →
      charmCount (collect_forge c).1.charms c.magicForge.primary =
        charmCount c.charms c.magicForge.primary + 1 ∧
      ∀ x, x ≠ c.magicForge.primary →
        charmCount (collect_forge c).1.charms x = charmCount c.charms x) ∧
    (c.magicForge.primary = 0 → (collect_forge c).1.charms = c.charms) ∧
    (collect_forge c).1.magicForge.hasSession = false ∧
    (collect_forge c).1.magicForge.primary = 0 ∧
    (collect_forge c).1.magicForge.secondary = 0 ∧
    (collect_forge c).1.magicForge.duration = 0 ∧
    (collect_forge c).1.magicForge.status = 0 ∧
    (collect_forge c).1.magicForge.usedlist = 0 ∧
    (collect_forge c).1.magicForge.var_2675 = 0 ∧
    (collect_forge c).1.magicForge.var_2316 = 0 ∧
    (collect_forge c).1.magicForge.var_2434 = false ∧
    (collect_forge c).2.1 = true ∧
    (collect_forge c).2.2 = some (0xe3, ([] : List Bool)) := by
  have hred : (collect_forge c).1.charms =
      (if c.magicForge.primary ≤ 0 then c.charms
       else addCharm c.charms c.magicForge.primary) := by
    simp [collect_forge, h]
  refine ⟨?_, ?_, ?_, ?_, ?_, ?_, ?_, ?_, ?_, ?_, ?_, ?_, ?_⟩
  · intro hp
    have hnp : ¬ c.magicForge.primary ≤ 0 := by omega
    rw [hred, if_neg hnp]
    exact ⟨charmCount_addCharm_self _ _, fun x hx => charmCount_addCharm_ne _ x hx _⟩
  · intro hp
    rw [hred, if_pos (by omega)]
  all_goals simp [collect_forge, h]

theorem C6_collect_forge_witness :
    collectChar.magicForge.hasSession = true ∧
    (0 < collectChar.magicForge.primary →
      charmCount (collect_forge collectChar).1.charms collectChar.magicForge.primary =
        charmCount collectChar.charms collectChar.magicForge.primary + 1 ∧
      ∀ x, x ≠ collectChar.magicForge.primary →
        charmCount (collect_forge collectChar).1.charms x = charmCount collectChar.charms x) ∧
    (collect_forge collectChar).1.magicForge.hasSession = false ∧
    charmCount (collect_forge collectChar).1.charms 7 = 1 :=
  ⟨rfl, (C6_collect_forge collectChar rfl).1,
   (C6_collect_forge collectChar rfl).2.2.1, by decide⟩

/-- Claim C9 counterexample: the handler does not compare the chosen gear
set's slot count with the equipped count.  With a gear set of 0 slots and 6
equipped slots the claim demands an abort with no mutation, no persistence
and no reply, but the handler overwrites the set's slot list, persists and
echoes. -/
theorem C9_counterexample :
    (c9bad.gearSets.getD 0 ⟨"", []⟩).slots.length ≠ c9bad.equippedGears.length ∧
    (handle_apply_gearset c9bad 0).2.1 = true ∧
    ((handle_apply_gearset c9bad 0).1.gearSets.getD 0 ⟨"", []⟩).slots =
      [0, 0, 0, 0, 0, 0] :=
  ⟨by decide, by decide, by decide⟩

/-- Claim C9 (amended): the apply-gearset request is accepted exactly when the
set index exists and the equipped list has the fixed expected count
(`MAX_SLOTS - 1 = 6`); then the set's slot list is overwritten with the
equipped gear ids, the save persisted and the request echoed; otherwise the
handler aborts with no mutation, no persistence and no reply.  (The handler
never inspects the chosen set's own slot count.) -/
theorem C9_apply_gearset (c : Character) (k : Nat) :
    (k < c.gearSets.length → c.equippedGears.length = MAX_SLOTS - 1 →
      handle_apply_gearset c k =
        ({ c with gearSets := setGearSetSlots c.gearSets k (c.equippedGears.map (fun it => it.gearID)) },
         true, true)) ∧
    (c.gearSets.length ≤ k ∨ c.equippedGears.length ≠ MAX_SLOTS - 1 →
      handle_apply_gearset c k = (c, false, false)) := by
  constructor
  · intro h1 h2
    simp [handle_apply_gearset, h1, h2]
  · intro h
    rcases h with h | h
    · simp [handle_apply_gearset, Nat.not_lt.mpr h]
    · by_cases hk : k < c.gearSets.length
      · simp [handle_apply_gearset, hk, h]
      · simp [handle_apply_gearset, hk]

theorem C9_apply_gearset_witness :
    (0 < c9ok.gearSets.length ∧ c9ok.equippedGears.length = MAX_SLOTS - 1) ∧
    handle_apply_gearset c9ok 0 =
      ({ c9ok with gearSets := setGearSetSlots c9ok.gearSets 0 (c9ok.equippedGears.map (fun it => it.gearID)) },
       true, true) ∧
    handle_apply_gearset c9ok 5 = (c9ok, false, false) :=
  ⟨⟨by decide, by decide⟩,
   (C9_apply_gearset c9ok 0).1 (by decide) (by decide),
   (C9_apply_gearset c9ok 5).2 (Or.inl (by decide))⟩

/-- Claim C10: a rune-socket request whose decoded rune slot is outside
`{1,2,3}` returns after only the fixed padding/truncation of the equipped
list: no rune, charm or inventory change, no save, no echo — also when the
character and a matching equipped gear exist. -/
theorem C10_invalid_rune_slot (c : Character) (eid gid gtier rid rs : Nat)
    (h : ¬(1 ≤ rs ∧ rs ≤ 3)) :
    handleRune c eid gid gtier rid rs =
      ({ c with equippedGears := padTruncEq c.equippedGears }, false, none) := by
  cases hf : findFirstGear (runeMatch gid gtier) (padTruncEq c.equippedGears) with
  | none => simp [handleRune, hf]
  | some g => simp [handleRune, hf, h]

/-! ### Claim C8: hotbar updates -/

theorem foldl_set_length (updates : List (Nat × Nat)) :
    ∀ l : List Nat, (updates.foldl (fun acc p => acc.set p.1 p.2) l).length = l.length := by
  induction updates with
  | nil => intro l; rfl
  | cons u rest ih =>
    intro l
    rw [List.foldl_cons, ih]
    exact List.length_set l u.1 u.2

theorem foldl_set_getElem?_notmem (updates : List (Nat × Nat)) :
    ∀ (l : List Nat) (i : Nat), i ∉ updates.map Prod.fst →
      (updates.foldl (fun acc p => acc.set p.1 p.2) l)[i]? = l[i]? := by
  induction updates with
  | nil => intro l i _; rfl
  | cons u rest ih =>
    intro l i hi
    simp only [List.map_cons, List.mem_cons] at hi
    push_neg at hi
    rw [List.foldl_cons, ih _ i hi.2, List.getElem?_set_ne (Ne.symm hi.1)]

theorem foldl_set_getElem?_mem (updates : List (Nat × Nat)) :
    ∀ l : List Nat, (updates.map Prod.fst).Nodup → ∀ p ∈ updates, p.1 < l.length →
      (updates.foldl (fun acc q => acc.set q.1 q.2) l)[p.1]? = some p.2 := by
  induction updates with
  | nil => intro l _ p hp; simp at hp
  | cons u rest ih =>
    intro l hnd p hp hlen
    rw [List.foldl_cons]
    simp only [List.map_cons, List.nodup_cons] at hnd
    rcases List.mem_cons.mp hp with hp | hp
    · subst hp
      rw [foldl_set_getElem?_notmem rest _ p.1 hnd.1]
      exact List.getElem?_set_self hlen
    · exact ih (l.set u.1 u.2) hnd.2 p hp (by simpa using hlen)

theorem init_le_foldl_max : ∀ (l : List Nat) (i : Nat), i ≤ l.foldl max i := by
  intro l
  induction l with
  | nil => intro i; exact le_rfl
  | cons x rest ih =>
    intro i
    exact le_trans (le_max_left i x) (ih (max i x))

theorem le_foldl_max : ∀ (l : List Nat) (a i : Nat), a ∈ l → a ≤ l.foldl max i := by
  intro l
  induction l with
  | nil => intro a i ha; simp at ha
  | cons x rest ih =>
    intro a i ha
    rcases List.mem_cons.mp ha with ha | ha
    · subst ha
      exact le_trans (le_max_right i a) (init_le_foldl_max rest (max i a))
    · exact ih a (max i x) ha

theorem getD_append_replicate_zero (a : List Nat) (n i : Nat) :
    (a ++ List.replicate n 0).getD i 0 = a.getD i 0 := by
  rcases Nat.lt_or_ge i a.length with h | h
  · rw [List.getD_eq_getElem?_getD, List.getD_eq_getElem?_getD, List.getElem?_append_left h]
  · rw [List.getD_eq_getElem?_getD, List.getD_eq_getElem?_getD,
      List.getElem?_append_right h, List.getElem?_replicate]
    by_cases h2 : i - a.length < n <;>
      simp [h2, List.getElem?_eq_none_iff.mpr h]

/-- The keys a successful hotbar decode produces are strictly increasing and
start no lower than `slot - 1`. -/
theorem decodeHotbar_keys (bits : List Bool) (slot : Nat) :
    ∀ u : List (Nat × Nat), 1 ≤ slot → decodeHotbar bits slot = some u →
      (u.map Prod.fst).Pairwise (· < ·) ∧ ∀ p ∈ u, slot ≤ p.1 + 1 := by
  induction bits, slot using decodeHotbar.induct with
  | case1 slot =>
    intro u _ h
    simp only [decodeHotbar] at h
    cases h
    simp
  | case2 slot b1 b2 b3 b4 b5 b6 b7 rest7 hnone ih =>
    intro u _ h
    simp [decodeHotbar, hnone] at h
  | case3 slot b1 b2 b3 b4 b5 b6 b7 rest7 u' hsome ih =>
    intro u hslot h
    simp only [decodeHotbar, if_pos, hsome] at h
    obtain ⟨hpair, hge⟩ := ih u' (by omega) hsome
    have hu : u = (slot - 1, bitsToNat [b1, b2, b3, b4, b5, b6, b7]) :: u' :=
      (Option.some_inj.mp h).symm
    subst hu
    constructor
    · rw [List.map_cons]
      refine List.pairwise_cons.mpr ⟨?_, hpair⟩
      intro k hk
      obtain ⟨p, hp, rfl⟩ := List.mem_map.mp hk
      have := hge p hp
      omega
    · intro p hp
      rcases List.mem_cons.mp hp with rfl | hp
      · omega
      · have := hge p hp
        omega
  | case4 rest slot hne =>
    intro u _ h
    exfalso
    rcases rest with _ | ⟨x1, rest⟩
    · simp [decodeHotbar] at h
    rcases rest with _ | ⟨x2, rest⟩
    · simp [decodeHotbar] at h
    rcases rest with _ | ⟨x3, rest⟩
    · simp [decodeHotbar] at h
    rcases rest with _ | ⟨x4, rest⟩
    · simp [decodeHotbar] at h
    rcases rest with _ | ⟨x5, rest⟩
    · simp [decodeHotbar] at h
    rcases rest with _ | ⟨x6, rest⟩
    · simp [decodeHotbar] at h
    rcases rest with _ | ⟨x7, rest⟩
    · simp [decodeHotbar] at h
    exact hne x1 x2 x3 x4 x5 x6 x7 rest rfl
  | case5 b rest slot hb ih =>
    intro u hslot h
    have hb0 : b = false := Bool.eq_false_iff.mpr hb
    subst hb0
    rw [decodeHotbar.eq_def] at h
    simp only [Bool.false_eq_true, if_false] at h
    obtain ⟨hpair, hge⟩ := ih u (by omega) h
    refine ⟨hpair, fun p hp => ?_⟩
    have := hge p hp
    omega

/-- Claim C8: a hotbar update decodes a 1-bit changed flag per declared slot
and a 7-bit skill id for each set flag; afterwards every flagged slot holds
its decoded skill id, every unflagged slot holds the value it held before
(slots being grown and zero-filled only as needed to reach the highest
flagged index), and the save is persisted. -/
theorem C8_hotbar_update (c : Character) (bits : List Bool) (updates : List (Nat × Nat))
    (hdec : decodeHotbar bits 1 = some updates) :
    handleHotbar c bits =
      ({ c with activeAbilities := applyHotbar c.activeAbilities updates }, true) ∧
    (handleHotbar c bits).1.activeAbilities.length =
      (if updates = [] then c.activeAbilities.length
       else max c.activeAbilities.length ((updates.map Prod.fst).foldl max 0 + 1)) ∧
    (∀ p ∈ updates, (handleHotbar c bits).1.activeAbilities[p.1]? = some p.2) ∧
    (∀ i, i ∉ updates.map Prod.fst →
      (handleHotbar c bits).1.activeAbilities.getD i 0 = c.activeAbilities.getD i 0) := by
  have hh : handleHotbar c bits =
      ({ c with activeAbilities := applyHotbar c.activeAbilities updates }, true) := by
    simp [handleHotbar, hdec]
  obtain ⟨hpair, _⟩ := decodeHotbar_keys bits 1 updates le_rfl hdec
  have hnd : (updates.map Prod.fst).Nodup := hpair.imp Nat.ne_of_lt
  have hlenb : ∀ p ∈ updates, p.1 < (growActive c.activeAbilities updates).length := by
    intro p hp
    have hmax := le_foldl_max (updates.map Prod.fst) p.1 0 (List.mem_map_of_mem Prod.fst hp)
    cases updates with
    | nil => simp at hp
    | cons u rest =>
      simp only [growActive, List.length_append, List.length_replicate]
      omega
  refine ⟨hh, ?_, ?_, ?_⟩
  · rw [hh]
    show (applyHotbar c.activeAbilities updates).length = _
    rw [applyHotbar, foldl_set_length]
    cases updates with
    | nil => simp [growActive]
    | cons u rest =>
      rw [if_neg (List.cons_ne_nil u rest)]
      simp only [growActive, List.length_append, List.length_replicate]
      omega
  · intro p hp
    rw [hh]
    exact foldl_set_getElem?_mem updates _ hnd p hp (hlenb p hp)
  · intro i hi
    rw [hh]
    show (applyHotbar c.activeAbilities updates).getD i 0 = _
    rw [List.getD_eq_getElem?_getD, applyHotbar, foldl_set_getElem?_notmem updates _ i hi,
      ← List.getD_eq_getElem?_getD]
    cases updates with
    | nil => rfl
    | cons u rest =>
      exact getD_append_replicate_zero c.activeAbilities _ i

theorem C8_hotbar_update_witness :
    decodeHotbar [true, false, false, false, false, false, true, false] 1 = some [(0, 2)] ∧
    (∀ p ∈ [((0 : Nat), (2 : Nat))],
      (handleHotbar hotbarChar
        [true, false, false, false, false, false, true, false]).1.activeAbilities[p.1]? =
        some p.2) ∧
    (handleHotbar hotbarChar
      [true, false, false, false, false, false, true, false]).1.activeAbilities = [2, 8] :=
  ⟨by decide,
   (C8_hotbar_update hotbarChar _ [(0, 2)] (by decide)).2.2.1,
   by decide⟩

theorem C10_invalid_rune_slot_witness :
    (¬(1 ≤ 4 ∧ 4 ≤ 3)) ∧
    findFirstGear (runeMatch 5 0) (padTruncEq syncedChar.equippedGears) =
      some { gearID := 5, tier := 0, runes := [1, 0, 0], colors := [0, 0] } ∧
    handleRune syncedChar 1 5 0 7 4 =
      ({ syncedChar with equippedGears := padTruncEq syncedChar.equippedGears },
       false, none) :=
  ⟨by decide, by decide, C10_invalid_rune_slot syncedChar 1 5 0 7 4 (by decide)⟩

/-! ### Claim C7: mastery tree codec -/

theorem length_toBits : ∀ (w v : Nat), (toBits v w).length = w := by
  intro w
  induction w with
  | zero => intro v; rfl
  | succ n ih => intro v; simp [toBits, ih]

theorem bitsToNat_snoc (xs : List Bool) (b : Bool) :
    bitsToNat (xs ++ [b]) = 2 * bitsToNat xs + (if b then 1 else 0) := by
  simp [bitsToNat, List.foldl_append]

theorem bitsToNat_toBits : ∀ (w v : Nat), v < 2 ^ w → bitsToNat (toBits v w) = v := by
  intro w
  induction w with
  | zero =>
    intro v hv
    have : v = 0 := by simpa using hv
    subst this
    rfl
  | succ n ih =>
    intro v hv
    have hv2 : v / 2 < 2 ^ n := by
      rw [Nat.div_lt_iff_lt_mul (by norm_num)]
      calc v < 2 ^ (n + 1) := hv
        _ = 2 ^ n * 2 := by rw [Nat.pow_succ]
    show bitsToNat (toBits (v / 2) n ++ [decide (v % 2 = 1)]) = v
    rw [bitsToNat_snoc, ih _ hv2]
    rcases Nat.mod_two_eq_zero_or_one v with h | h <;> simp [h] <;> omega

theorem decodeBoundedUint_toBits (v wd : Nat) (tail : List Bool) (hv : v < 2 ^ wd) :
    decodeBoundedUint (toBits v wd ++ tail) wd = some (v, tail) := by
  have hlen : (toBits v wd).length = wd := length_toBits wd v
  have ht : (toBits v wd ++ tail).take wd = toBits v wd := by
    have h2 := List.take_left (toBits v wd) tail
    rwa [hlen] at h2
  have hd : (toBits v wd ++ tail).drop wd = tail := by
    have h2 := List.drop_left (toBits v wd) tail
    rwa [hlen] at h2
  unfold decodeBoundedUint
  rw [if_pos (by rw [List.length_append, hlen]; omega), ht, hd,
    bitsToNat_toBits wd v hv]

/-- Decoding the concatenated node encodings of any index list recovers
exactly the `(nodeIdx, points)` data of its present-and-filled nodes and
leaves the trailing bits untouched — in particular every point value is read
back with exactly the width `w i` it was written with. -/
theorem decodeNodes_encFrom (w : Nat → Nat) (cw : Nat) (slots : List MSlot) :
    ∀ is : List Nat, (∀ i ∈ is, nodeOKb w cw slots i = true) →
      ∀ rest : List Bool,
        decodeNodes w cw is (encFrom w cw slots is ++ rest) =
          some (is.filterMap (pickNode slots), rest) := by
  intro is
  induction is with
  | nil => intro _ rest; simp [encFrom, decodeNodes]
  | cons i is' ih =>
    intro hok rest
    have hoki := hok i (List.mem_cons_self i is')
    have hok' : ∀ j ∈ is', nodeOKb w cw slots j = true :=
      fun j hj => hok j (List.mem_cons_of_mem i hj)
    cases hl : lookupNode slots i with
    | none =>
      have henc : encFrom w cw slots (i :: is') = [false] ++ encFrom w cw slots is' := by
        rw [encFrom]
        simp [encodeNodeAt, hl]
      rw [henc, List.append_assoc]
      show decodeNodes w cw (i :: is') (false :: (encFrom w cw slots is' ++ rest)) = _
      rw [decodeNodes.eq_def]
      simp only [Bool.false_eq_true, if_false]
      rw [ih hok' rest]
      simp [List.filterMap_cons, pickNode, hl]
    | some s =>
      by_cases hf : s.filled = true
      · have hb : s.nodeIdx < 2 ^ cw ∧ 1 ≤ s.points ∧ s.points - 1 < 2 ^ (w i) := by
          simp only [nodeOKb, hl, hf, Bool.not_true, Bool.false_or, Bool.and_eq_true,
            decide_eq_true_eq] at hoki
          exact ⟨hoki.1.1, hoki.1.2, hoki.2⟩
        have henc : encFrom w cw slots (i :: is') =
            true :: (toBits s.nodeIdx cw ++ (toBits (s.points - 1) (w i) ++ encFrom w cw slots is')) := by
          rw [encFrom]
          simp [encodeNodeAt, hl, hf, List.append_assoc]
        rw [henc]
        have hassoc :
            (toBits s.nodeIdx cw ++ (toBits (s.points - 1) (w i) ++ encFrom w cw slots is')) ++ rest =
              toBits s.nodeIdx cw ++ (toBits (s.points - 1) (w i) ++ (encFrom w cw slots is' ++ rest)) := by
          simp [List.append_assoc]
        show decodeNodes w cw (i :: is')
            (true :: ((toBits s.nodeIdx cw ++ (toBits (s.points - 1) (w i) ++ encFrom w cw slots is')) ++ rest)) = _
        rw [hassoc, decodeNodes.eq_def]
        simp only [if_true, decodeBoundedUint_toBits _ _ _ hb.1,
          decodeBoundedUint_toBits _ _ _ hb.2.2, ih hok' rest]
        have hp : s.points - 1 + 1 = s.points := by omega
        simp [List.filterMap_cons, pickNode, hl, hf, hp]
      · have henc : encFrom w cw slots (i :: is') = [false] ++ encFrom w cw slots is' := by
          rw [encFrom]
          simp [encodeNodeAt, hl, hf]
        rw [henc, List.append_assoc]
        show decodeNodes w cw (i :: is') (false :: (encFrom w cw slots is' ++ rest)) = _
        rw [decodeNodes.eq_def]
        simp only [Bool.false_eq_true, if_false]
        rw [ih hok' rest]
        simp [List.filterMap_cons, pickNode, hl, hf]

theorem encodeMasteryBody_eq_encFrom (w : Nat → Nat) (cw : Nat) (slots : List MSlot) :
    encodeMasteryBody w cw slots = encFrom w cw slots (List.range class_118_const_43) := by
  have haux : ∀ (is : List Nat) (acc : List Bool),
      is.foldl (fun a i => a ++ encodeNodeAt w cw slots i) acc = acc ++ encFrom w cw slots is := by
    intro is
    induction is with
    | nil => intro acc; simp [encFrom]
    | cons i is' ih => intro acc; simp [encFrom, ih, List.append_assoc]
  simpa [encodeMasteryBody] using haux (List.range class_118_const_43) []

/-- A full tree body decodes back to exactly its filled-node data. -/
theorem decode_encodeMasteryBody (w : Nat → Nat) (cw : Nat) (slots : List MSlot)
    (hok : ∀ i ∈ List.range class_118_const_43, nodeOKb w cw slots i = true) :
    decodeMasteryBody w cw (encodeMasteryBody w cw slots) = some (filledNodes slots) := by
  have hdec := decodeNodes_encFrom w cw slots (List.range class_118_const_43) hok []
  rw [List.append_nil] at hdec
  rw [decodeMasteryBody, encodeMasteryBody_eq_encFrom, hdec]
  rfl

/-- Claim C7: the mastery-tree encoder writes, for each node index
`i = 0 .. 26` in order, a 1-bit presence flag and, for a present and filled
node, the node index with the protocol-fixed width `cw` and `points - 1` with
exactly the per-node width `w i` — witnessed by the reference decoder (which
reads exactly those widths) recovering the filled-node data; and the
select-mastery-class handler stores the new class and re-sends the full tree
of the newly selected class (entity id prefix followed by that class's
encoded body). -/
theorem C7_mastery_codec (w : Nat → Nat) (cw : Nat) (c : Character) (eid mcid : Nat)
    (hok : ∀ i ∈ List.range class_118_const_43,
      nodeOKb w cw (masteryLookup c.Mastery mcid) i = true) :
    (handle_masterclass w cw c eid mcid).1.MasterClass = mcid ∧
    (handle_masterclass w cw c eid mcid).2.1 = (eid, mcid) ∧
    (handle_masterclass w cw c eid mcid).2.2 =
      method_4_bits eid ++ encodeMasteryBody w cw (masteryLookup c.Mastery mcid) ∧
    decodeMasteryBody w cw (encodeMasteryBody w cw (masteryLookup c.Mastery mcid)) =
      some (filledNodes (masteryLookup c.Mastery mcid)) :=
  ⟨rfl, rfl, rfl, decode_encodeMasteryBody w cw _ hok⟩

theorem C7_mastery_codec_witness :
    (∀ i ∈ List.range class_118_const_43,
      nodeOKb (fun i => i + 1) 5 (masteryLookup masteryChar.Mastery 2) i = true) ∧
    (handle_masterclass (fun i => i + 1) 5 masteryChar 1 2).1.MasterClass = 2 ∧
    decodeMasteryBody (fun i => i + 1) 5
        (encodeMasteryBody (fun i => i + 1) 5 (masteryLookup masteryChar.Mastery 2)) =
      some (filledNodes (masteryLookup masteryChar.Mastery 2)) :=
  ⟨by decide,
   (C7_mastery_codec (fun i => i + 1) 5 masteryChar 1 2 (by decide)).1,
   (C7_mastery_codec (fun i => i + 1) 5 masteryChar 1 2 (by decide)).2.2.2⟩

/-! ### Claim C2: rune conservation -/

theorem findCharm_some_id :
    ∀ (cs : List Charm) (cid : Nat) (ch : Charm), findCharm cs cid = some ch →
      ch.charmID = cid := by
  intro cs
  induction cs with
  | nil => intro cid ch h; simp [findCharm] at h
  | cons a rest ih =>
    intro cid ch h
    by_cases ha : a.charmID = cid
    · simp only [findCharm, ha, if_pos] at h
      cases h
      exact ha
    · simp only [findCharm, ha, if_neg, not_false_iff] at h
      exact ih cid ch h

theorem findCharm_none_of_not_mem :
    ∀ (cs : List Charm) (cid : Nat), cid ∉ cs.map (fun ch => ch.charmID) →
      findCharm cs cid = none := by
  intro cs
  induction cs with
  | nil => intro cid _; rfl
  | cons a rest ih =>
    intro cid h
    simp only [List.map_cons, List.mem_cons] at h
    push_neg at h
    simp only [findCharm, Ne.symm h.1, if_neg, not_false_iff]
    exact ih cid h.2

/-- `consumeCharm` skips a head whose id differs. -/
theorem consumeCharm_cons_ne (a : Charm) (rest : List Charm) (cid : Nat)
    (ha : a.charmID ≠ cid) :
    consumeCharm (a :: rest) cid = a :: consumeCharm rest cid := by
  unfold consumeCharm
  rw [show findCharm (a :: rest) cid = findCharm rest cid by
    simp [findCharm, ha]]
  cases hf : findCharm rest cid with
  | none => rfl
  | some ch =>
    have hchid : ch.charmID = cid := findCharm_some_id rest cid ch hf
    have hane : a ≠ (⟨ch.charmID, ch.count - 1⟩ : Charm) := by
      intro hcontra
      apply ha
      rw [hcontra]
      exact hchid
    simp only [setFirstCharm, ha, if_neg, not_false_iff]
    by_cases hc : ch.count - 1 ≤ 0
    · rw [if_pos hc, if_pos hc]
      simp [removeFirstEq, hane]
    · rw [if_neg hc, if_neg hc]

/-- `consumeCharm` on a matching head: decrement, removing the entry when its
count falls to zero or below. -/
theorem consumeCharm_cons_eq (a : Charm) (rest : List Charm) (cid : Nat)
    (ha : a.charmID = cid) :
    consumeCharm (a :: rest) cid =
      if a.count - 1 ≤ 0 then rest else (⟨cid, a.count - 1⟩ : Charm) :: rest := by
  unfold consumeCharm
  rw [show findCharm (a :: rest) cid = some a by simp [findCharm, ha]]
  simp only [setFirstCharm, ha, if_pos]
  by_cases hc : a.count - 1 ≤ 0
  · rw [if_pos hc, if_pos hc]
    simp [removeFirstEq, ha]
  · rw [if_neg hc, if_neg hc]

theorem consumeCharm_find_ne (cid x : Nat) (hx : x ≠ cid) :
    ∀ cs : List Charm, findCharm (consumeCharm cs cid) x = findCharm cs x := by
  intro cs
  induction cs with
  | nil => rfl
  | cons a rest ih =>
    by_cases ha : a.charmID = cid
    · rw [consumeCharm_cons_eq a rest cid ha]
      have hax : a.charmID ≠ x := by rw [ha]; exact Ne.symm hx
      by_cases hc : a.count - 1 ≤ 0
      · rw [if_pos hc]
        simp [findCharm, hax]
      · rw [if_neg hc]
        simp [findCharm, hax, Ne.symm hx]
    · rw [consumeCharm_cons_ne a rest cid ha]
      by_cases hax : a.charmID = x
      · simp [findCharm, hax]
      · simp [findCharm, hax, ih]

theorem consumeCharm_self (cid : Nat) :
    ∀ (cs : List Charm) (ch : Charm), (cs.map (fun e => e.charmID)).Nodup →
      findCharm cs cid = some ch →
      charmCount (consumeCharm cs cid) cid =
        (if ch.count - 1 ≤ 0 then 0 else ch.count - 1) ∧
      (ch.count - 1 ≤ 0 → findCharm (consumeCharm cs cid) cid = none) := by
  intro cs
  induction cs with
  | nil => intro ch _ h; simp [findCharm] at h
  | cons a rest ih =>
    intro ch hnd h
    simp only [List.map_cons, List.nodup_cons] at hnd
    by_cases ha : a.charmID = cid
    · have hch : ch = a := by
        simp only [findCharm, ha, if_pos] at h
        exact (Option.some_inj.mp h).symm
      rw [hch, consumeCharm_cons_eq a rest cid ha]
      have hrest : findCharm rest cid = none := by
        apply findCharm_none_of_not_mem
        rw [← ha]
        exact hnd.1
      by_cases hc : a.count - 1 ≤ 0
      · rw [if_pos hc]
        refine ⟨?_, fun _ => hrest⟩
        rw [if_pos hc]
        simp [charmCount, hrest]
      · rw [if_neg hc]
        refine ⟨?_, fun hcontra => absurd hcontra hc⟩
        rw [if_neg hc]
        simp [charmCount, findCharm]
    · have h' : findCharm rest cid = some ch := by
        simpa only [findCharm, ha, if_neg, not_false_iff] using h
      rw [consumeCharm_cons_ne a rest cid ha]
      obtain ⟨ih1, ih2⟩ := ih ch hnd.2 h'
      constructor
      · rw [charmCount]
        simp only [findCharm, ha, if_neg, not_false_iff]
        rw [charmCount] at ih1
        exact ih1
      · intro hc
        simp only [findCharm, ha, if_neg, not_false_iff]
        exact ih2 hc

theorem consumeCharm_ids_sublist (cid : Nat) :
    ∀ cs : List Charm,
      List.Sublist ((consumeCharm cs cid).map (fun e => e.charmID))
        (cs.map (fun e => e.charmID)) := by
  intro cs
  induction cs with
  | nil => simp [consumeCharm, findCharm]
  | cons a rest ih =>
    by_cases ha : a.charmID = cid
    · rw [consumeCharm_cons_eq a rest cid ha]
      by_cases hc : a.count - 1 ≤ 0
      · rw [if_pos hc]
        simp only [List.map_cons]
        exact List.sublist_cons_self _ _
      · rw [if_neg hc]
        simp only [List.map_cons, ha]
        exact List.Sublist.refl _
    · rw [consumeCharm_cons_ne a rest cid ha]
      simpa using ih.cons₂ a.charmID

theorem consumeCharm_nodup (cid : Nat) (cs : List Charm)
    (hnd : (cs.map (fun e => e.charmID)).Nodup) :
    ((consumeCharm cs cid).map (fun e => e.charmID)).Nodup :=
  List.Nodup.sublist (consumeCharm_ids_sublist cid cs) hnd

theorem addCharm_ids (cid : Nat) :
    ∀ cs : List Charm,
      (addCharm cs cid).map (fun e => e.charmID) =
        (if cid ∈ cs.map (fun e => e.charmID) then cs.map (fun e => e.charmID)
         else cs.map (fun e => e.charmID) ++ [cid]) := by
  intro cs
  induction cs with
  | nil => simp [addCharm]
  | cons a rest ih =>
    by_cases ha : a.charmID = cid
    · simp [addCharm, ha]
    · simp only [addCharm, ha, if_neg, not_false_iff, List.map_cons, ih]
      by_cases hmem : cid ∈ rest.map (fun e => e.charmID)
      · simp [hmem, Ne.symm ha]
      · simp [hmem, Ne.symm ha]

theorem addCharm_nodup (cid : Nat) (cs : List Charm)
    (hnd : (cs.map (fun e => e.charmID)).Nodup) :
    ((addCharm cs cid).map (fun e => e.charmID)).Nodup := by
  rw [addCharm_ids]
  by_cases hmem : cid ∈ cs.map (fun e => e.charmID)
  · rwa [if_pos hmem]
  · rw [if_neg hmem, List.nodup_append]
    refine ⟨hnd, List.nodup_singleton _, ?_⟩
    intro x hx hx2
    rw [List.mem_singleton] at hx2
    subst hx2
    exact hmem hx

theorem findFirstGear_append_fail (p : Gear → Bool) :
    ∀ (l1 : List Gear), (∀ a ∈ l1, p a = false) → ∀ (v : Gear) (l2 : List Gear),
      p v = true → findFirstGear p (l1 ++ v :: l2) = some v := by
  intro l1
  induction l1 with
  | nil => intro _ v l2 hv; simp [findFirstGear, hv]
  | cons a l1' ih =>
    intro hfail v l2 hv
    have ha := hfail a (List.mem_cons_self _ _)
    simp only [List.cons_append, findFirstGear, ha, Bool.false_eq_true, if_false]
    exact ih (fun x hx => hfail x (List.mem_cons_of_mem a hx)) v l2 hv

/-- Rescanning after replacing the first match finds the replacement (when it
still satisfies the scan predicate). -/
theorem findFirstGear_setFirstGear (p : Gear → Bool) (v : Gear) (l : List Gear) (g : Gear)
    (h : findFirstGear p l = some g) (hv : p v = true) :
    findFirstGear p (setFirstGear p v l) = some v := by
  obtain ⟨l1, l2, _, hfail, hset⟩ := findFirstGear_decomp p l g h
  rw [hset v]
  exact findFirstGear_append_fail p l1 hfail v l2 hv

theorem length_padTruncEq (l : List Gear) : (padTruncEq l).length = MAX_SLOTS - 1 := by
  simp [padTruncEq, MAX_SLOTS]
  omega

theorem padTruncEq_of_length (l : List Gear) (h : l.length = MAX_SLOTS - 1) :
    padTruncEq l = l := by
  have h6 : l.length = 6 := h
  have hrep : MAX_SLOTS - 1 - l.length = 0 := by rw [h6]; rfl
  have htake : padTruncEq l = l.take (MAX_SLOTS - 1) := by
    rw [padTruncEq, hrep]
    simp
  rw [htake, ← h]
  exact List.take_length l

/-- The state `handle_rune_packet` leaves behind on the paths that pass the
slot-validity and rune-read checks: the charms get the branch-prescribed
update and the matched equipped slot gets its rune written, regardless of how
the inventory synchronization goes. -/
theorem handleRune_state (c : Character) (eid gid gtier rid rs : Nat) (g : Gear)
    (oldRune : Nat)
    (hfind : findFirstGear (runeMatch gid gtier) (padTruncEq c.equippedGears) = some g)
    (hrs : 1 ≤ rs ∧ rs ≤ 3)
    (hold : g.runes[rs - 1]? = some oldRune) :
    (handleRune c eid gid gtier rid rs).1.charms =
      (if rid = 96 then
        consumeCharm
          (if oldRune ≠ 0 ∧ oldRune ≠ 96 then addCharm c.charms oldRune else c.charms) 96
       else consumeCharm c.charms rid) ∧
    (handleRune c eid gid gtier rid rs).1.equippedGears =
      setFirstGear (runeMatch gid gtier)
        { g with runes := g.runes.set (rs - 1) (if rid = 96 then 0 else rid) }
        (padTruncEq c.equippedGears) := by
  simp only [handleRune, hfind]
  rw [if_pos hrs]
  simp only [hold]
  cases hinv : findFirstGear (runeMatch gid gtier) c.inventoryGears with
  | none => exact ⟨rfl, rfl⟩
  | some it =>
    by_cases hl : rs - 1 < it.runes.length
    · simp [hl]
    · simp [hl]

/-- Claim C2: for a character whose charm list (a mapping: distinct ids) has
a positive count for a real rune id `r` (`r ≠ 0`, `r ≠ 96`) and at least one
remover charm (id 96, positive count), socketing `r` into an empty rune slot
of an equipped gear and then sending rune id 96 on the same slot restores
every charm count to its pre-socket value, except that exactly one remover
unit is consumed — the remover entry disappearing entirely when its count
reaches zero. -/
theorem C2_rune_conservation (c : Character) (eid gid gtier r rs : Nat)
    (g : Gear) (chR ch96 : Charm)
    (hfind : findFirstGear (runeMatch gid gtier) (padTruncEq c.equippedGears) = some g)
    (hrs : 1 ≤ rs ∧ rs ≤ 3)
    (hempty : g.runes[rs - 1]? = some 0)
    (hr0 : r ≠ 0) (hr96 : r ≠ 96)
    (hchR : findCharm c.charms r = some chR) (hcrpos : 1 ≤ chR.count)
    (hch96 : findCharm c.charms 96 = some ch96) (hc96pos : 1 ≤ ch96.count)
    (hnd : (c.charms.map (fun ch => ch.charmID)).Nodup) :
    (∀ x, x ≠ 96 →
      charmCount
        (handleRune (handleRune c eid gid gtier r rs).1 eid gid gtier 96 rs).1.charms x =
        charmCount c.charms x) ∧
    charmCount
      (handleRune (handleRune c eid gid gtier r rs).1 eid gid gtier 96 rs).1.charms 96 =
      charmCount c.charms 96 - 1 ∧
    (ch96.count = 1 →
      findCharm
        (handleRune (handleRune c eid gid gtier r rs).1 eid gid gtier 96 rs).1.charms 96 =
        none) := by
  have hg := (findFirstGear_mem_pred _ _ _ hfind).2
  obtain ⟨hch1, heq1⟩ := handleRune_state c eid gid gtier r rs g 0 hfind hrs hempty
  rw [if_neg hr96] at hch1
  have hlt : rs - 1 < g.runes.length := by
    by_contra hcontra
    push_neg at hcontra
    rw [List.getElem?_eq_none_iff.mpr hcontra] at hempty
    exact Option.noConfusion hempty
  have hg' : runeMatch gid gtier
      { g with runes := g.runes.set (rs - 1) (if r = 96 then 0 else r) } = true := hg
  have hpad1 : padTruncEq (handleRune c eid gid gtier r rs).1.equippedGears =
      (handleRune c eid gid gtier r rs).1.equippedGears := by
    apply padTruncEq_of_length
    rw [heq1, length_setFirstGear, length_padTruncEq]
  have hfind2 : findFirstGear (runeMatch gid gtier)
      (padTruncEq (handleRune c eid gid gtier r rs).1.equippedGears) =
      some { g with runes := g.runes.set (rs - 1) (if r = 96 then 0 else r) } := by
    rw [hpad1, heq1]
    exact findFirstGear_setFirstGear _ _ _ g hfind hg'
  have hold2 : ({ g with runes := g.runes.set (rs - 1) (if r = 96 then 0 else r) } : Gear).runes[rs - 1]? =
      some r := by
    show (g.runes.set (rs - 1) (if r = 96 then 0 else r))[rs - 1]? = some r
    rw [if_neg hr96]
    exact List.getElem?_set_self hlt
  obtain ⟨hch2, _⟩ :=
    handleRune_state (handleRune c eid gid gtier r rs).1 eid gid gtier 96 rs
      { g with runes := g.runes.set (rs - 1) (if r = 96 then 0 else r) } r hfind2 hrs hold2
  rw [if_pos rfl, if_pos ⟨hr0, hr96⟩, hch1] at hch2
  -- charm bookkeeping
  have hcntR : charmCount c.charms r = chR.count := by simp [charmCount, hchR]
  have hcnt96 : charmCount c.charms 96 = ch96.count := by simp [charmCount, hch96]
  have hndA : ((consumeCharm c.charms r).map (fun e => e.charmID)).Nodup :=
    consumeCharm_nodup r c.charms hnd
  have hfind96A : findCharm (consumeCharm c.charms r) 96 = some ch96 := by
    rw [consumeCharm_find_ne r 96 (Ne.symm hr96)]
    exact hch96
  obtain ⟨hcntA_r, _⟩ := consumeCharm_self r c.charms chR hnd hchR
  have hndB : ((addCharm (consumeCharm c.charms r) r).map (fun e => e.charmID)).Nodup :=
    addCharm_nodup r _ hndA
  have hfind96B : findCharm (addCharm (consumeCharm c.charms r) r) 96 = some ch96 := by
    rw [findCharm_addCharm_ne r 96 (Ne.symm hr96)]
    exact hfind96A
  have hcntB_r : charmCount (addCharm (consumeCharm c.charms r) r) r =
      charmCount c.charms r := by
    rw [charmCount_addCharm_self, hcntA_r, hcntR]
    by_cases hone : chR.count - 1 ≤ 0
    · rw [if_pos hone]; omega
    · rw [if_neg hone]; omega
  obtain ⟨hcntF_96, hremF⟩ :=
    consumeCharm_self 96 (addCharm (consumeCharm c.charms r) r) ch96 hndB hfind96B
  refine ⟨?_, ?_, ?_⟩
  · intro x hx
    rw [hch2, charmCount, consumeCharm_find_ne 96 x hx, ← charmCount]
    by_cases hxr : x = r
    · subst hxr
      exact hcntB_r
    · rw [charmCount, findCharm_addCharm_ne r x hxr, ← charmCount, charmCount,
        consumeCharm_find_ne r x hxr, ← charmCount]
  · rw [hch2, hcntF_96, hcnt96]
    by_cases hone : ch96.count - 1 ≤ 0
    · rw [if_pos hone]; omega
    · rw [if_neg hone]
  · intro h1
    rw [hch2]
    exact hremF (by omega)

theorem C2_rune_conservation_witness :
    (findFirstGear (runeMatch 5 0) (padTruncEq runeChar.equippedGears) =
        some (placeholderGear 5) ∧
      (1 ≤ 1 ∧ 1 ≤ 3) ∧ (placeholderGear 5).runes[(1 : Nat) - 1]? = some 0 ∧
      findCharm runeChar.charms 7 = some ⟨7, 2⟩ ∧
      findCharm runeChar.charms 96 = some ⟨96, 1⟩ ∧
      (runeChar.charms.map (fun ch => ch.charmID)).Nodup) ∧
    (∀ x, x ≠ 96 →
      charmCount
        (handleRune (handleRune runeChar 1 5 0 7 1).1 1 5 0 96 1).1.charms x =
        charmCount runeChar.charms x) ∧
    ((1 : Int) = 1 →
      findCharm
        (handleRune (handleRune runeChar 1 5 0 7 1).1 1 5 0 96 1).1.charms 96 = none) :=
  ⟨⟨by decide, ⟨by decide, by decide⟩, by decide, by decide, by decide, by decide⟩,
   (C2_rune_conservation runeChar 1 5 0 7 1 (placeholderGear 5) ⟨7, 2⟩ ⟨96, 1⟩
      (by decide) ⟨by decide, by decide⟩ (by decide) (by decide) (by decide)
      (by decide) (by decide) (by decide) (by decide) (by decide)).1,
   (C2_rune_conservation runeChar 1 5 0 7 1 (placeholderGear 5) ⟨7, 2⟩ ⟨96, 1⟩
      (by decide) ⟨by decide, by decide⟩ (by decide) (by decide) (by decide)
      (by decide) (by decide) (by decide) (by decide) (by decide)).2.2⟩

/-! ### Claim C1: the equip/inventory synchronization invariant -/

theorem mem_growGearsTo6 (l : List Gear) (g : Gear) (h : g ∈ growGearsTo6 l) :
    g ∈ l ∨ g = defaultGear := by
  rcases List.mem_append.mp h with h2 | h2
  · exact Or.inl h2
  · exact Or.inr (List.eq_of_mem_replicate h2)

theorem mem_padTruncEq (l : List Gear) (g : Gear) (h : g ∈ padTruncEq l) :
    g ∈ l ∨ g = defaultGear := by
  have h1 : g ∈ l ++ List.replicate (MAX_SLOTS - 1 - l.length) defaultGear :=
    List.take_subset _ _ h
  rcases List.mem_append.mp h1 with h2 | h2
  · exact Or.inl h2
  · exact Or.inr (List.eq_of_mem_replicate h2)

theorem pairwise_replicate_gear (n : Nat) (x : Gear) (R : Gear → Gear → Prop)
    (h : R x x) : (List.replicate n x).Pairwise R := by
  induction n with
  | zero => simp
  | succ m ih =>
    rw [List.replicate_succ]
    refine List.pairwise_cons.mpr ⟨?_, ih⟩
    intro b hb
    rw [List.eq_of_mem_replicate hb]
    exact h

theorem pairwise_padTruncEq (l : List Gear)
    (h : l.Pairwise (fun a b => a.gearID = 0 ∨ b.gearID = 0 ∨ a.gearID ≠ b.gearID)) :
    (padTruncEq l).Pairwise
      (fun a b => a.gearID = 0 ∨ b.gearID = 0 ∨ a.gearID ≠ b.gearID) := by
  apply List.Pairwise.sublist (List.take_sublist _ _)
  rw [List.pairwise_append]
  refine ⟨h, pairwise_replicate_gear _ _ _ (Or.inl rfl), ?_⟩
  intro a _ b hb
  rw [List.eq_of_mem_replicate hb]
  exact Or.inr (Or.inl rfl)

theorem inj_of_nodup_map_gearID :
    ∀ l : List Gear, (l.map (fun g => g.gearID)).Nodup →
      ∀ a ∈ l, ∀ b ∈ l, a.gearID = b.gearID → a = b := by
  intro l
  induction l with
  | nil => intro _ a ha; simp at ha
  | cons x rest ih =>
    intro hnd a ha b hb hab
    simp only [List.map_cons, List.nodup_cons] at hnd
    rcases List.mem_cons.mp ha with ha1 | ha1
    · rcases List.mem_cons.mp hb with hb1 | hb1
      · rw [ha1, hb1]
      · exfalso
        apply hnd.1
        rw [← ha1, hab]
        exact List.mem_map_of_mem (fun g => g.gearID) hb1
    · rcases List.mem_cons.mp hb with hb1 | hb1
      · exfalso
        apply hnd.1
        rw [← hb1, ← hab]
        exact List.mem_map_of_mem (fun g => g.gearID) ha1
      · exact ih hnd.2 a ha1 b hb1 hab

/-- The rune handler on the path where no inventory entry matches: the
updated gear is appended to the inventory. -/
theorem handleRune_append (c : Character) (eid gid gtier rid rs : Nat) (g : Gear)
    (oldRune : Nat)
    (hfind : findFirstGear (runeMatch gid gtier) (padTruncEq c.equippedGears) = some g)
    (hrs : 1 ≤ rs ∧ rs ≤ 3)
    (hold : g.runes[rs - 1]? = some oldRune)
    (hinvf : findFirstGear (runeMatch gid gtier) c.inventoryGears = none) :
    handleRune c eid gid gtier rid rs =
      ({ c with
          equippedGears := setFirstGear (runeMatch gid gtier)
            { g with runes := g.runes.set (rs - 1) (if rid = 96 then 0 else rid) }
            (padTruncEq c.equippedGears),
          inventoryGears := c.inventoryGears ++
            [{ g with runes := g.runes.set (rs - 1) (if rid = 96 then 0 else rid) }],
          charms := (if rid = 96 then
            consumeCharm
              (if oldRune ≠ 0 ∧ oldRune ≠ 96 then addCharm c.charms oldRune
               else c.charms) 96
            else consumeCharm c.charms rid) },
       true, some ⟨eid, gid, gtier, rid, rs⟩) := by
  simp only [handleRune, hfind]
  rw [if_pos hrs]
  simp only [hold, hinvf]

/-- The rune handler on the path where an inventory entry matches and its
rune list is long enough: that entry's rune slot is synchronized in place. -/
theorem handleRune_syncSet (c : Character) (eid gid gtier rid rs : Nat) (g it : Gear)
    (oldRune : Nat)
    (hfind : findFirstGear (runeMatch gid gtier) (padTruncEq c.equippedGears) = some g)
    (hrs : 1 ≤ rs ∧ rs ≤ 3)
    (hold : g.runes[rs - 1]? = some oldRune)
    (hinvf : findFirstGear (runeMatch gid gtier) c.inventoryGears = some it)
    (hl : rs - 1 < it.runes.length) :
    handleRune c eid gid gtier rid rs =
      ({ c with
          equippedGears := setFirstGear (runeMatch gid gtier)
            { g with runes := g.runes.set (rs - 1) (if rid = 96 then 0 else rid) }
            (padTruncEq c.equippedGears),
          inventoryGears := setFirstGear (runeMatch gid gtier) { it with runes := it.runes.set (rs - 1) ((g.runes.set (rs - 1) (if rid = 96 then 0 else rid)).getD (rs - 1) 0) } c.inventoryGears,
          charms := (if rid = 96 then
            consumeCharm
              (if oldRune ≠ 0 ∧ oldRune ≠ 96 then addCharm c.charms oldRune
               else c.charms) 96
            else consumeCharm c.charms rid) },
       true, some ⟨eid, gid, gtier, rid, rs⟩) := by
  simp only [handleRune, hfind]
  rw [if_pos hrs]
  simp only [hold, hinvf, hl, if_true]

/-- Claim C1 counterexample: the claim as stated quantifies over every
character; a character whose equipped gear 5 is already out of sync with the
(empty) inventory completes an equip of gear 42 into slot 2, yet afterwards
not every equipped gear id has an inventory entry with identical rune and
color state — gear 5 still has none. -/
theorem C1_counterexample :
    (handleGear c1bad 1 1 2 42).2.1 = true ∧
    equipInvariantAllB (handleGear c1bad 1 1 2 42).1 = false ∧
    (¬ ∀ g ∈ (handleGear c1bad 1 1 2 42).1.equippedGears,
      gearSynced (handleGear c1bad 1 1 2 42).1.inventoryGears g) :=
  ⟨by decide, by decide, by decide⟩

/-- Claim C1 (amended): provided that beforehand every equipped gear with a
nonzero gear id has an inventory entry with the same id and identical rune
and color state, that inventory gear ids are distinct, and that no two
equipped slots carry the same nonzero gear id, then a single-gear-equip
request (0x31) processed to completion and a rune-socket request (0xB0)
processed to completion each re-establish the invariant: afterwards every
equipped gear with nonzero id again has an inventory entry with identical
rune and color state. -/
theorem C1_sync_invariant (c : Character) (eid pfx slot1 gid gtier rid rs : Nat)
    (hinv : equipSyncInvariant c)
    (hnd : (c.inventoryGears.map (fun g => g.gearID)).Nodup)
    (heq : c.equippedGears.Pairwise
      (fun a b => a.gearID = 0 ∨ b.gearID = 0 ∨ a.gearID ≠ b.gearID)) :
    ((handleGear c eid pfx slot1 gid).2.1 = true →
      equipSyncInvariant (handleGear c eid pfx slot1 gid).1) ∧
    ((handleRune c eid gid gtier rid rs).2.1 = true →
      equipSyncInvariant (handleRune c eid gid gtier rid rs).1) := by
  constructor
  · -- single gear equip
    intro hsaved
    cases hk : pyIndex (growGearsTo6 c.equippedGears).length (((slot1 : Nat) : Int) - 1) with
    | none =>
      exfalso
      simp [handleGear, hk] at hsaved
    | some k =>
      cases hfind : findFirstGear (fun it => decide (it.gearID = gid)) c.inventoryGears with
      | some it =>
        have hany : c.inventoryGears.any (fun it => decide (it.gearID = gid)) = true := by
          obtain ⟨hmem, hpred⟩ := findFirstGear_mem_pred _ _ _ hfind
          exact List.any_eq_true.mpr ⟨it, hmem, hpred⟩
        have hres : (handleGear c eid pfx slot1 gid).1 =
            { c with equippedGears := (growGearsTo6 c.equippedGears).set k it } := by
          simp [handleGear, hk, hfind, hany]
        rw [hres]
        intro x hx hx0
        rcases List.mem_or_eq_of_mem_set hx with hx | hxe
        · rcases mem_growGearsTo6 _ _ hx with hm | rfl
          · exact hinv x hm hx0
          · exact absurd rfl hx0
        · exact ⟨it, (findFirstGear_mem_pred _ _ _ hfind).1,
            by rw [hxe], by rw [hxe], by rw [hxe]⟩
      | none =>
        have hany := findFirstGear_none_any _ _ hfind
        have hres : (handleGear c eid pfx slot1 gid).1 =
            { c with equippedGears := (growGearsTo6 c.equippedGears).set k (placeholderGear gid),
                     inventoryGears := c.inventoryGears ++ [placeholderGear gid] } := by
          simp [handleGear, hk, hfind, hany]
        rw [hres]
        intro x hx hx0
        rcases List.mem_or_eq_of_mem_set hx with hx | rfl
        · rcases mem_growGearsTo6 _ _ hx with hm | rfl
          · obtain ⟨w, hw, hwid, hwr, hwc⟩ := hinv x hm hx0
            exact ⟨w, List.mem_append_left _ hw, hwid, hwr, hwc⟩
          · exact absurd rfl hx0
        · exact ⟨placeholderGear gid,
            List.mem_append_right _ (List.mem_singleton_self _), rfl, rfl, rfl⟩
  · -- rune socketing
    intro hsaved
    cases hfind : findFirstGear (runeMatch gid gtier) (padTruncEq c.equippedGears) with
    | none =>
      exfalso
      simp [handleRune, hfind] at hsaved
    | some g =>
      by_cases hrs : 1 ≤ rs ∧ rs ≤ 3
      case neg =>
        exfalso
        simp [handleRune, hfind, hrs] at hsaved
      case pos =>
        cases hold : g.runes[rs - 1]? with
        | none =>
          exfalso
          simp only [handleRune, hfind] at hsaved
          rw [if_pos hrs] at hsaved
          simp [hold] at hsaved
        | some oldRune =>
          have hinvP : ∀ x ∈ padTruncEq c.equippedGears, x.gearID ≠ 0 →
              gearSynced c.inventoryGears x := by
            intro x hx h0
            rcases mem_padTruncEq _ _ hx with hm | rfl
            · exact hinv x hm h0
            · exact absurd rfl h0
          have heqP := pairwise_padTruncEq _ heq
          obtain ⟨hgmem, hgpred⟩ := findFirstGear_mem_pred _ _ _ hfind
          have hgid : g.gearID = gid ∧ g.tier = gtier := by
            simpa [runeMatch] using hgpred
          obtain ⟨e1, e2, hsplitE, hfailE, hsetE⟩ := findFirstGear_decomp _ _ _ hfind
          rw [hsplitE] at heqP
          rw [List.pairwise_append] at heqP
          cases hinvf : findFirstGear (runeMatch gid gtier) c.inventoryGears with
          | none =>
            rw [handleRune_append c eid gid gtier rid rs g oldRune hfind hrs hold hinvf]
            intro x hx hx0
            rw [hsetE] at hx
            rcases List.mem_append.mp hx with hx | hx
            · have hxp : x ∈ padTruncEq c.equippedGears := by
                rw [hsplitE]; exact List.mem_append_left _ hx
              obtain ⟨w, hw, hwid, hwr, hwc⟩ := hinvP x hxp hx0
              exact ⟨w, List.mem_append_left _ hw, hwid, hwr, hwc⟩
            · rcases List.mem_cons.mp hx with rfl | hx
              · exact ⟨_, List.mem_append_right _ (List.mem_singleton_self _), rfl, rfl, rfl⟩
              · have hxp : x ∈ padTruncEq c.equippedGears := by
                  rw [hsplitE]
                  exact List.mem_append_right _ (List.mem_cons_of_mem _ hx)
                obtain ⟨w, hw, hwid, hwr, hwc⟩ := hinvP x hxp hx0
                exact ⟨w, List.mem_append_left _ hw, hwid, hwr, hwc⟩
          | some it =>
            obtain ⟨hitmem, hitpred⟩ := findFirstGear_mem_pred _ _ _ hinvf
            have hitid : it.gearID = gid ∧ it.tier = gtier := by
              simpa [runeMatch] using hitpred
            by_cases hl : rs - 1 < it.runes.length
            case neg =>
              exfalso
              simp only [handleRune, hfind] at hsaved
              rw [if_pos hrs] at hsaved
              simp [hold, hinvf, hl] at hsaved
            case pos =>
              rw [handleRune_syncSet c eid gid gtier rid rs g it oldRune hfind hrs hold hinvf hl]
              have hlt : rs - 1 < g.runes.length := by
                by_contra hcontra
                push_neg at hcontra
                rw [List.getElem?_eq_none_iff.mpr hcontra] at hold
                exact Option.noConfusion hold
              have hv2 : (g.runes.set (rs - 1) (if rid = 96 then 0 else rid)).getD (rs - 1) 0 =
                  (if rid = 96 then 0 else rid) := by
                rw [List.getD_eq_getElem?_getD, List.getElem?_set_self hlt]
                rfl
              obtain ⟨m1, m2, hsplitI, hfailI, hsetI⟩ := findFirstGear_decomp _ _ _ hinvf
              intro x hx hx0
              rw [hsetE] at hx
              -- the updated inventory entry
              have hmemIt : ({ it with runes := it.runes.set (rs - 1) ((g.runes.set (rs - 1) (if rid = 96 then 0 else rid)).getD (rs - 1) 0) } : Gear) ∈ setFirstGear (runeMatch gid gtier) { it with runes := it.runes.set (rs - 1) ((g.runes.set (rs - 1) (if rid = 96 then 0 else rid)).getD (rs - 1) 0) } c.inventoryGears := by
                rw [hsetI]
                exact List.mem_append_right _ (List.mem_cons_self _ _)
              -- membership of untouched inventory entries
              have hkeep : ∀ w ∈ c.inventoryGears, w.gearID ≠ gid →
                  w ∈ setFirstGear (runeMatch gid gtier) { it with runes := it.runes.set (rs - 1) ((g.runes.set (rs - 1) (if rid = 96 then 0 else rid)).getD (rs - 1) 0) } c.inventoryGears := by
                intro w hw hwid
                rw [hsetI]
                rw [hsplitI] at hw
                rcases List.mem_append.mp hw with hw | hw
                · exact List.mem_append_left _ hw
                · rcases List.mem_cons.mp hw with rfl | hw
                  · exact absurd hitid.1 hwid
                  · exact List.mem_append_right _ (List.mem_cons_of_mem _ hw)
              rcases List.mem_append.mp hx with hx | hx
              · -- a slot before the matched one: its id differs from gid
                have hxp : x ∈ padTruncEq c.equippedGears := by
                  rw [hsplitE]; exact List.mem_append_left _ hx
                obtain ⟨w, hw, hwid, hwr, hwc⟩ := hinvP x hxp hx0
                have hxgid : x.gearID ≠ gid := by
                  intro hcontra
                  have hrel := heqP.2.2 x hx g (List.mem_cons_self _ _)
                  rcases hrel with h0 | h0 | h0
                  · exact hx0 h0
                  · rw [hgid.1] at h0
                    exact hx0 (hcontra.trans h0)
                  · exact h0 (hcontra.trans hgid.1.symm)
                exact ⟨w, hkeep w hw (hwid ▸ hxgid), hwid, hwr, hwc⟩
              · rcases List.mem_cons.mp hx with rfl | hx
                · -- the updated slot itself: its witness is the updated entry
                  have hgne : g.gearID ≠ 0 := hx0
                  obtain ⟨w, hw, hwid, hwr, hwc⟩ := hinvP g hgmem hgne
                  have hweq : w = it := by
                    apply inj_of_nodup_map_gearID c.inventoryGears hnd w hw it hitmem
                    rw [hwid, hgid.1, hitid.1]
                  refine ⟨_, hmemIt, ?_, ?_, ?_⟩
                  · show it.gearID = g.gearID
                    rw [← hweq]
                    exact hwid
                  · show it.runes.set (rs - 1) ((g.runes.set (rs - 1) (if rid = 96 then 0 else rid)).getD (rs - 1) 0) = g.runes.set (rs - 1) (if rid = 96 then 0 else rid)
                    rw [← hweq, hwr, hv2]
                  · show it.colors = g.colors
                    rw [← hweq]
                    exact hwc
                · -- a slot after the matched one: its id differs from gid
                  have hxp : x ∈ padTruncEq c.equippedGears := by
                    rw [hsplitE]
                    exact List.mem_append_right _ (List.mem_cons_of_mem _ hx)
                  obtain ⟨w, hw, hwid, hwr, hwc⟩ := hinvP x hxp hx0
                  have hxgid : x.gearID ≠ gid := by
                    intro hcontra
                    have hpg := List.pairwise_cons.mp heqP.2.1
                    have hrel := hpg.1 x hx
                    rcases hrel with h0 | h0 | h0
                    · rw [hgid.1] at h0
                      exact hx0 (hcontra.trans h0)
                    · exact hx0 h0
                    · exact h0 (hgid.1.trans hcontra.symm)
                  exact ⟨w, hkeep w hw (hwid ▸ hxgid), hwid, hwr, hwc⟩

theorem C1_sync_invariant_witness :
    (equipSyncInvariant syncedChar ∧
      (syncedChar.inventoryGears.map (fun g => g.gearID)).Nodup ∧
      syncedChar.equippedGears.Pairwise
        (fun a b => a.gearID = 0 ∨ b.gearID = 0 ∨ a.gearID ≠ b.gearID)) ∧
    ((handleRune syncedChar 1 5 0 7 1).2.1 = true →
      equipSyncInvariant (handleRune syncedChar 1 5 0 7 1).1) :=
  ⟨⟨by decide, by decide, by decide⟩,
   (C1_sync_invariant syncedChar 1 1 1 5 0 7 1 (by decide) (by decide) (by decide)).2⟩

end DB
